import Mathlib

/-! Zen-C language server: resolution engine

A shallow embedding of `src/lsp/lsp_analysis.c` (the query functions of the
language server) and `src/lsp/json_rpc.c` (request decoding and dispatch)
together with the properties its specification states.

Conventions of the embedding

* C strings are `String` values (or `List Char` where the code walks them
  byte by byte); a nullable `char *` is an `Option String`.
* C `int` values are `Int`; no arithmetic of the embedded code can leave the
  32-bit range for inputs inside it (the only arithmetic is `x - 1` for
  `x > 0`, `x + 1` for a clamped column, and pointer offsets).
* A singly linked list (`next` pointers) is a `List`, head first.
* Every function of `lsp_analysis.c` writes its answer to `stdout`.  The
  embedding returns the list of messages written, as structured values
  (`Response`), so "answers once" is `= [r]` and "stays silent" is `= []`.
* Functions that `lsp_analysis.c` calls but that are defined in other
  translation units (`lsp_find_at` in `lsp_index.c`; `lsp_project_get_file`,
  `lsp_project_find_definition`, `lsp_project_init` and
  `lsp_project_update_file` in `lsp_project.c`; `type_to_string` and
  `find_symbol_in_all` in the parser) are fields of `Helpers` and
  `ParserSide` (and, with `lsp_project_find_references`, of `Server`): every
  theorem holds for every implementation of them.
* Strings are unbounded.  The fixed-size buffers of `lsp_completion`
  (`var_name[256]`, `clean_name[256]`, the response of 1 MiB) and of
  `lsp_check_file` (the notification of 128 KiB), the read `ptr[col - 1]`
  and the dereferences of `g_project->ctx` are in the `_run` forms of these
  two functions, which name the calls that leave defined behaviour.
-/

namespace ZenLsp

/-! ## Data model -/

/-- Modelled from the spec: the AST node variants the index refers to
(`Function`, `Struct`, `VarDecl`, `Const`, `ExprVar`, `ExprCall`, others); the
declaration of `ASTNode` is in the parser headers, which are absent.  A struct
field is the node `lsp_completion` reads through `field.name` and
`field.type`. -/
structure FieldNode where
  name : String
  type : String
  deriving DecidableEq, Repr

/-- Modelled from the spec: see `FieldNode`.  `NODE_CONST` stores its name in
the `var_decl` member, as the code reads it. -/
inductive ASTNode where
  | func (name : String)
  | strct (name : String) (fields : List FieldNode)
  | var_decl (name : String)
  | const (name : String)
  | expr_var (name : String)
  | expr_call (callee : ASTNode)
  | other
  deriving DecidableEq, Repr

/-- The two range kinds, `RANGE_DEFINITION` and `RANGE_REFERENCE`. -/
inductive RangeType where
  | RANGE_DEFINITION
  | RANGE_REFERENCE
  deriving DecidableEq, Repr

/-- Modelled from the spec: `SourceRange` (the declaration of `LSPRange` is in
the absent `lsp_index.h`); the fields are the ones `lsp_analysis.c` reads.
An unresolved reference has `def_line < 0`. -/
structure LSPRange where
  start_line : Int
  start_col : Int
  end_line : Int
  end_col : Int
  type : RangeType
  def_line : Int
  def_col : Int
  hover_text : Option String
  node : ASTNode
  deriving DecidableEq, Repr

/-- The per-file range index: the list that starts at `idx->head`. -/
structure LSPIndex where
  head : List LSPRange
  deriving DecidableEq, Repr

/-- A tracked file, `ProjectFile` of `lsp_project.h`. -/
structure ProjectFile where
  path : String
  uri : String
  source : Option String
  index : Option LSPIndex
  deriving DecidableEq, Repr

/-- A pointer to a parser `Type` object.  The LSP layer never looks inside it;
it only hands it to `type_to_string`. -/
structure TypePtr where
  addr : Nat
  deriving DecidableEq, Repr

/-- An entry of the function registry (`FuncSig`).  The C pair
`(total_args, arg_types)` is the list of the `total_args` entries of the
array; an entry may be a null pointer. -/
structure FuncSig where
  name : String
  arg_types : List (Option TypePtr)
  ret_type : Option TypePtr
  deriving DecidableEq, Repr

/-- An entry of the struct registry (`StructDef`): its name and its AST node
(nullable). -/
structure StructDef where
  name : String
  node : Option ASTNode
  deriving DecidableEq, Repr

/-- A symbol of the parser scopes: `type_info` (nullable `Type *`) and
`type_name` (nullable string). -/
structure Symbol where
  type_info : Option TypePtr
  type_name : Option String
  deriving DecidableEq, Repr

/-- The part of `ParserContext` the LSP layer reads: the two registries. The
scopes are reached only through `find_symbol_in_all`. -/
structure ParserContext where
  func_registry : List FuncSig
  struct_defs : List StructDef
  scopes : List (String × Symbol)
  deriving DecidableEq, Repr

/-- The project, `LSPProject` of `lsp_project.h`. -/
structure LSPProject where
  ctx : Option ParserContext
  files : List ProjectFile
  root_path : String
  deriving DecidableEq, Repr

/-- Result of a global definition lookup, `DefinitionResult`. -/
structure DefinitionResult where
  uri : Option String
  range : Option LSPRange
  deriving DecidableEq, Repr

/-- A lexer token: the position the parser reports (1-based). -/
structure Token where
  line : Int
  col : Int
  deriving DecidableEq, Repr

/-- Functions `lsp_analysis.c` calls that are defined in other translation
units.  `g` is the value of the global `g_project` at the time of the call. -/
structure Helpers where
  lsp_project_get_file : Option LSPProject → String → Option ProjectFile
  lsp_find_at : LSPIndex → Int → Int → Option LSPRange
  lsp_project_find_definition : Option LSPProject → String → DefinitionResult
  type_to_string : Option TypePtr → Option String
  find_symbol_in_all : ParserContext → String → Option Symbol

/-! ## Messages written to stdout -/

/-- One completion item: `label`, `kind`, `detail`. -/
structure CompletionItem where
  label : String
  kind : Nat
  detail : String
  deriving DecidableEq, Repr

/-- One entry of a diagnostics array. -/
structure DiagnosticEntry where
  start_line : Int
  start_character : Int
  end_line : Int
  end_character : Int
  severity : Nat
  message : String
  deriving DecidableEq, Repr

/-- One entry of a references array: `uri` and `range`. -/
structure RefLocation where
  uri : String
  start_line : Int
  start_col : Int
  end_line : Int
  end_col : Int
  deriving DecidableEq, Repr

/-- One entry of a document-symbol array: `name`, `kind`, and the location. -/
structure SymbolInformation where
  name : String
  kind : Nat
  uri : String
  start_line : Int
  start_col : Int
  end_line : Int
  end_col : Int
  deriving DecidableEq, Repr

/-- The JSON-RPC messages `lsp_analysis.c` and `json_rpc.c` write, by the shape
of their `result` (or `params`); `capabilities` is the fixed answer to
`initialize`. -/
inductive Response where
  | null
  | location (uri : String) (start_line start_col end_line end_col : Int)
  | hover (value : String)
  | completion (items : List CompletionItem)
  | signatureHelp (label : String)
  | publishDiagnostics (uri : String) (diagnostics : List DiagnosticEntry)
  | references (locations : List RefLocation)
  | documentSymbols (symbols : List SymbolInformation)
  | capabilities
  deriving DecidableEq, Repr

/-! ## Go to definition -/

/-- The identifier a reference node names: the name of a `NODE_EXPR_VAR`, or
of the callee of a `NODE_EXPR_CALL` when the callee is a `NODE_EXPR_VAR`;
otherwise the C pointer stays `NULL`. -/
def ref_name : ASTNode → Option String
  | .expr_var name => some name
  | .expr_call (.expr_var name) => some name
  | _ => none

/-- The name a definition node introduces (`NODE_FUNCTION`, `NODE_VAR_DECL`,
`NODE_CONST`, `NODE_STRUCT`); otherwise `NULL`. -/
def def_name : ASTNode → Option String
  | .func name => some name
  | .var_decl name => some name
  | .const name => some name
  | .strct name _ => some name
  | _ => none

/-- The flag `is_local` of `lsp_goto_definition`: the range at the definition
site is a definition and the two names are equal strings. -/
def is_local (h : Helpers) (idx : LSPIndex) (r : LSPRange) : Bool :=
  match h.lsp_find_at idx r.def_line r.def_col with
  | some d =>
    if d.type = RangeType.RANGE_DEFINITION then
      match ref_name r.node, def_name d.node with
      | some rn, some dn => rn == dn
      | _, _ => false
    else false
  | none => false

/-- Step 2 of `lsp_goto_definition` and the final null answer. -/
def goto_global (h : Helpers) (g : Option LSPProject) (r : Option LSPRange) : List Response :=
  match r with
  | some r =>
    match ref_name r.node with
    | some name =>
      match h.lsp_project_find_definition g name with
      | ⟨some duri, some drange⟩ =>
        [Response.location duri drange.start_line drange.start_col drange.end_line drange.end_col]
      | _ => [Response.null]
    | none => [Response.null]
  | none => [Response.null]

/-- The function `lsp_goto_definition(uri, line, col)`. -/
def lsp_goto_definition (h : Helpers) (g : Option LSPProject) (uri : String) (line col : Int) :
    List Response :=
  match (h.lsp_project_get_file g uri).bind (fun pf => pf.index) with
  | none => []
  | some idx =>
    match h.lsp_find_at idx line col with
    | some r =>
      if r.type = RangeType.RANGE_DEFINITION then
        [Response.location uri r.start_line r.start_col r.end_line r.end_col]
      else if r.type = RangeType.RANGE_REFERENCE ∧ r.def_line ≥ 0 then
        if is_local h idx r then
          [Response.location uri r.def_line r.def_col r.def_line r.def_col]
        else goto_global h g (some r)
      else goto_global h g (some r)
    | none => goto_global h g none

/-! ## Walking the cached source

The cached source is a NUL-terminated C string; `String.toList` gives its
characters (one `Char` per byte of the C string) and the end of the list is
the terminator. -/

/-- The read `s[i]` of a C string: the terminator `\0` at the end of the
characters.  A read beyond the terminator is outside the buffer; the
functions that can make one (`lsp_completion` at `ptr[col - 1]`) check the
index first in their `_run` form below, and here the value is `\0`. -/
def char_at (s : List Char) (i : Nat) : Char := s.getD i (Char.ofNat 0)

/-- The loop that finds the start of line `line`,
`while (*ptr && cur_line < line) { if (*ptr == '\n') cur_line++; ptr++; }`,
run on the characters from `ptr` on; the result is how far `ptr` advanced. -/
def seek_line : List Char → Int → Int → Nat
  | [], _, _ => 0
  | c :: cs, cur_line, line =>
    if cur_line < line then
      seek_line cs (if c = '\n' then cur_line + 1 else cur_line) line + 1
    else 0

/-- C `isalnum(c) || c == '_'` (C locale). -/
def is_ident_char (c : Char) : Bool := c.isAlphanum || c == '_'

/-- C `isspace` (C locale): space, `\t`, `\n`, `\v`, `\f`, `\r`. -/
def isspace (c : Char) : Bool :=
  c == ' ' || c == '\t' || c == '\n' || c == Char.ofNat 11 || c == Char.ofNat 12 || c == '\r'

/-- The test `ptr[i] == ' ' || ptr[i] == '\t'` of `lsp_completion`. -/
def is_blank (c : Char) : Bool := c == ' ' || c == '\t'

/-- A backward loop `while (i >= 0 && p(buf[i])) i--;`.  The argument and the
result are `i + 1` (so `0` stands for `i = -1`, the index left of the
buffer). -/
def scan_left (p : Char → Bool) (buf : Nat → Char) : Nat → Nat
  | 0 => 0
  | i + 1 => if p (buf i) then scan_left p buf i else i + 1

/-- The characters `buf[a] .. buf[a + len - 1]`, what `strncpy(dst, buf + a,
len); dst[len] = 0;` leaves in `dst` (no NUL among them). -/
def copy_chars (buf : Nat → Char) (a len : Nat) : String :=
  String.mk ((List.range len).map (fun j => buf (a + j)))

/-! ## Completion -/

/-- The string `type_name` of `lsp_completion` for a symbol: the string form
of `type_info` when that pointer is set, else `type_name`. -/
def declared_type (h : Helpers) (sym : Symbol) : Option String :=
  match sym.type_info with
  | some ti => h.type_to_string (some ti)
  | none => sym.type_name

/-- The buffer `clean_name`: the type name without a leading `"struct "` and
cut at the first `*`. -/
def clean_type_name (type_name : String) : String :=
  let src := type_name.toList
  let src := if src.take 7 = "struct ".toList then src.drop 7 else src
  String.mk (src.takeWhile (fun c => c != '*'))

/-- The field list `sd->node->strct.fields` (empty when `sd->node` is null). -/
def struct_fields (sd : StructDef) : List FieldNode :=
  match sd.node with
  | some (.strct _ fields) => fields
  | _ => []

/-- The items written for a struct found by member completion. -/
def field_items (sd : StructDef) : List CompletionItem :=
  (struct_fields sd).map (fun f => ⟨f.name, 5, "field " ++ f.type⟩)

/-- Part 1 of `lsp_completion` (dot access) for a call that stays inside its
buffers: `some items` when the function answers from inside the struct loop,
`none` when control reaches part 2.  The sizes of `var_name[256]` and
`clean_name[256]` and the bound of the read `ptr[col - 1]` are in
`member_completion_run`. -/
def member_completion (h : Helpers) (ctx : ParserContext) (source : Option String)
    (line col : Int) : Option (List CompletionItem) :=
  match source with
  | none => none
  | some src =>
    let s := src.toList
    let off := seek_line s 0 line
    let ptr : Nat → Char := fun i => char_at s (off + i)
    if col > 0 ∧ ptr (col - 1).toNat = '.' then
      -- i = col - 2, kept as i + 1
      let i := scan_left is_blank ptr (col - 1).toNat
      if i > 0 then
        let end_ident := i - 1
        let start_ident := scan_left is_ident_char ptr i
        if start_ident ≤ end_ident then
          let len := end_ident - start_ident + 1
          let var_name := copy_chars ptr start_ident len
          match (h.find_symbol_in_all ctx var_name).bind (declared_type h) with
          | some type_name =>
            let clean_name := clean_type_name type_name
            match ctx.struct_defs.find? (fun sd => sd.name == clean_name) with
            | some sd => some (field_items sd)
            | none => none
          | none => none
        else none
      else none
    else none

/-- Part 2 of `lsp_completion`: one item per function, then one per struct. -/
def global_items (ctx : ParserContext) : List CompletionItem :=
  ctx.func_registry.map (fun f => ⟨f.name, 3, "fn " ++ f.name⟩) ++
    ctx.struct_defs.map (fun s => ⟨s.name, 22, "struct " ++ s.name⟩)

/-- The function `lsp_completion(uri, line, col)`: the messages written by a
call that stays inside its buffers; `lsp_completion_run` adds the calls that
do not. -/
def lsp_completion (h : Helpers) (g : Option LSPProject) (uri : String) (line col : Int) :
    List Response :=
  match g.bind (fun proj => proj.ctx), h.lsp_project_get_file g uri with
  | some ctx, some pf =>
    match member_completion h ctx pf.source line col with
    | some items => [Response.completion items]
    | none => [Response.completion (global_items ctx)]
  | _, _ => []

/-! ## Signature help -/

/-- The loop that builds `params`: the string forms of the parameter types,
`", "` before every one but the first, `"unknown"` for a type without a
string form. -/
def params_loop (h : Helpers) : List (Option TypePtr) → Bool → String → String
  | [], _, params => params
  | t :: ts, first, params =>
    let params := if first then params else params ++ ", "
    let params := match h.type_to_string t with
      | some tstr => params ++ tstr
      | none => params ++ "unknown"
    params_loop h ts false params

/-- The buffer `label` of `lsp_signature_help`,
`sprintf(label, "fn %s(%s) -> %s", fn->name, params, ret_str ? ret_str : "void")`. -/
def signature_label (h : Helpers) (fn : FuncSig) : String :=
  let params := params_loop h fn.arg_types true ""
  let ret_str := h.type_to_string fn.ret_type
  "fn " ++ fn.name ++ "(" ++ params ++ ") -> " ++ (match ret_str with
    | some r => r
    | none => "void")

/-- How the backward scan of `lsp_signature_help` ends: by one of its bare
`return;` statements (nothing is written), at the null answer after the loop,
or inside the registry loop at the function `fn`. -/
inductive SigScan where
  | bare_return
  | no_match
  | found (fn : FuncSig)
  deriving DecidableEq, Repr

/-- The body of `if (*p == '(')` in `lsp_signature_help`; `p` is the offset of
the parenthesis in the source `s`. -/
def after_paren (ctx : ParserContext) (s : List Char) (p : Nat) : SigScan :=
  -- ident_end = p - 1, kept as ident_end + 1
  let ident_end := scan_left isspace (char_at s) p
  if ident_end = 0 then SigScan.bare_return
  else
    let ident_start := scan_left is_ident_char (char_at s) ident_end
    let len := ident_end - ident_start
    if len = 0 ∨ len > 255 then SigScan.bare_return
    else
      let func_name := copy_chars (char_at s) ident_start len
      match ctx.func_registry.find? (fun fn => fn.name == func_name) with
      | some fn => SigScan.found fn
      | none => SigScan.no_match

/-- The loop `while (p >= pf->source)` of `lsp_signature_help`; the argument
is `p + 1` as an offset into the source. -/
def scan_back (ctx : ParserContext) (s : List Char) : Nat → SigScan
  | 0 => SigScan.no_match
  | p + 1 =>
    if char_at s p = ')' then SigScan.bare_return
    else if char_at s p = '(' then after_paren ctx s p
    else scan_back ctx s p

/-- The offset of `ptr` in `lsp_signature_help` after the walk to the line
and `ptr += col`. -/
def cursor_offset (s : List Char) (line col : Int) : Nat :=
  seek_line s 0 line + (if col > 0 then col.toNat else 0)

/-- The function `lsp_signature_help(uri, line, col)`. -/
def lsp_signature_help (h : Helpers) (g : Option LSPProject) (uri : String) (line col : Int) :
    List Response :=
  match g.bind (fun proj => proj.ctx), h.lsp_project_get_file g uri with
  | some ctx, some pf =>
    match pf.source with
    | none => []
    | some src =>
      let s := src.toList
      let ptr := cursor_offset s line col
      if ptr > s.length then []
      else
        match scan_back ctx s ptr with
        | SigScan.bare_return => []
        | SigScan.found fn => [Response.signatureHelp (signature_label h fn)]
        | SigScan.no_match => [Response.null]
  | _, _ => []

/-! ## Diagnostics -/

/-- A collected parser error, `Diagnostic`. -/
structure Diagnostic where
  line : Int
  col : Int
  message : String
  deriving DecidableEq, Repr

/-- The callback `lsp_on_error(data, t, msg)`: appends one diagnostic at the
tail of the list `data` points to. -/
def lsp_on_error (list : List Diagnostic) (t : Token) (msg : String) : List Diagnostic :=
  list ++ [⟨if t.line > 0 then t.line - 1 else 0, if t.col > 0 then t.col - 1 else 0, msg⟩]

/-- The parser side of `lsp_check_file`, defined in other translation units:
`lsp_project_init`, `getcwd`, and `lsp_project_update_file`, which re-parses
the file and calls the error callback installed in the context once per error
it reports; the calls are given as the list of their `(token, message)`
arguments, in call order, next to the updated project. -/
structure ParserSide where
  getcwd : Option String
  lsp_project_init : String → LSPProject
  lsp_project_update_file : LSPProject → String → String → LSPProject × List (Token × String)

/-- The entry `sprintf` writes for one diagnostic. -/
def diagnostic_entry (d : Diagnostic) : DiagnosticEntry :=
  ⟨d.line, d.col, d.line, d.col + 1, 1, d.message⟩

/-- The project `lsp_check_file` works on: `g_project`, created from the
current directory (or `"."`) when it is still null. -/
def ensure_project (ps : ParserSide) (g : Option LSPProject) : LSPProject :=
  match g with
  | some proj => proj
  | none =>
    match ps.getcwd with
    | some cwd => ps.lsp_project_init cwd
    | none => ps.lsp_project_init "."

/-- The errors the parser reports while `lsp_check_file(uri, src)` re-parses
the file: the arguments of its calls of the error callback, in call order. -/
def reported_errors (ps : ParserSide) (g : Option LSPProject) (uri src : String) :
    List (Token × String) :=
  (ps.lsp_project_update_file (ensure_project ps g) uri src).2

/-- The function `lsp_check_file(uri, json_src)`: the new value of
`g_project` and the messages written by a call that stays inside its buffer
and finds the parser context; `lsp_check_file_run` adds the calls that do
not.  The list `diagnostics` starts empty
(`DiagnosticList diagnostics = {0}`) and `lsp_on_error` is the callback while
the file is parsed. -/
def lsp_check_file (ps : ParserSide) (g : Option LSPProject) (uri src : String) :
    Option LSPProject × List Response :=
  let proj := ensure_project ps g
  let (proj, calls) := ps.lsp_project_update_file proj uri src
  let diagnostics := calls.foldl (fun list c => lsp_on_error list c.1 c.2) []
  (some proj, [Response.publishDiagnostics uri (diagnostics.map diagnostic_entry)])

/-! ## Buffers and null pointers: the calls that leave defined behaviour

`lsp_completion` and `lsp_check_file` write into buffers of fixed size without
a length check and read the source and the parser context without a bound or
a null check.  The `_run` forms below follow the same statements and name the
calls that overrun a buffer, read outside the source or dereference a null
pointer. -/

/-- What a call does: it writes the messages `out` to stdout, or it leaves
defined behaviour before it has written anything (`fault`: a write or read
outside a buffer, or a null dereference); nothing is said about what the
process does after a fault. -/
inductive Outcome where
  | wrote (out : List Response)
  | fault
  deriving DecidableEq, Repr

/-- The loop that writes the entries of an array, a `","` before every entry
but the first. -/
def joined : List String → String
  | [] => ""
  | [x] => x
  | x :: y :: rest => x ++ "," ++ joined (y :: rest)

/-- The text `sprintf` writes for one completion item,
`{"label":"%s","kind":K,"detail":"D %s"}`. -/
def item_text (item : CompletionItem) : String :=
  "\x7b\"label\":\"" ++ item.label ++ "\",\"kind\":" ++ toString item.kind ++
    ",\"detail\":\"" ++ item.detail ++ "\"\x7d"

/-- The text of a completion response in its buffer `malloc(1024 * 1024)`. -/
def completion_text (items : List CompletionItem) : String :=
  "\x7b\"jsonrpc\":\"2.0\",\"id\":1,\"result\":[" ++ joined (items.map item_text) ++ "]\x7d"

/-- The text `sprintf` writes for one diagnostic. -/
def diagnostic_text (d : Diagnostic) : String :=
  "\x7b\"range\":\x7b\"start\":\x7b\"line\":" ++ toString d.line ++
    ",\"character\":" ++ toString d.col ++
    "\x7d,\"end\":\x7b\"line\":" ++ toString d.line ++
    ",\"character\":" ++ toString (d.col + 1) ++
    "\x7d\x7d,\"severity\":1,\"message\":\"" ++ d.message ++ "\"\x7d"

/-- The text of the publishDiagnostics notification in its buffer
`malloc(128 * 1024)`. -/
def notification_text (uri : String) (diagnostics : List Diagnostic) : String :=
  "\x7b\"jsonrpc\":\"2.0\",\"method\":\"textDocument/publishDiagnostics\",\"params\":\x7b\"uri\":\""
    ++ uri ++ "\",\"diagnostics\":[" ++ joined (diagnostics.map diagnostic_text) ++ "]\x7d\x7d"

/-- How part 1 of `lsp_completion` ends. -/
inductive MemberStep where
  | answer (items : List CompletionItem)
  | fall_through
  | fault
  deriving DecidableEq, Repr

/-- Part 1 of `lsp_completion` (dot access) with its buffers: the read
`ptr[col - 1]` is inside the source up to its terminator, `var_name[256]`
takes `len` characters and a terminator, `clean_name[256]` takes the cleaned
type name and a terminator.  The `free(type_name)` after a member answer
(which also frees a `sym->type_name` the symbol still owns) comes after the
message is written and flushed; it is not part of what the call writes. -/
def member_completion_run (h : Helpers) (ctx : ParserContext) (source : Option String)
    (line col : Int) : MemberStep :=
  match source with
  | none => MemberStep.fall_through
  | some src =>
    let s := src.toList
    let off := seek_line s 0 line
    let ptr : Nat → Char := fun i => char_at s (off + i)
    if col > 0 then
      if off + (col - 1).toNat > s.length then MemberStep.fault
      else if ptr (col - 1).toNat = '.' then
        let i := scan_left is_blank ptr (col - 1).toNat
        if i > 0 then
          let end_ident := i - 1
          let start_ident := scan_left is_ident_char ptr i
          if start_ident ≤ end_ident then
            let len := end_ident - start_ident + 1
            if len > 255 then MemberStep.fault
            else
              let var_name := copy_chars ptr start_ident len
              match (h.find_symbol_in_all ctx var_name).bind (declared_type h) with
              | some type_name =>
                let clean_name := clean_type_name type_name
                if clean_name.length > 255 then MemberStep.fault
                else
                  match ctx.struct_defs.find? (fun sd => sd.name == clean_name) with
                  | some sd => MemberStep.answer (field_items sd)
                  | none => MemberStep.fall_through
              | none => MemberStep.fall_through
          else MemberStep.fall_through
        else MemberStep.fall_through
      else MemberStep.fall_through
    else MemberStep.fall_through

/-- The answer of `lsp_completion` once its text is in the 1 MiB buffer:
`sprintf` needs room for the text and its terminator. -/
def completion_answer (items : List CompletionItem) : Outcome :=
  if (completion_text items).length ≥ 1024 * 1024 then Outcome.fault
  else Outcome.wrote [Response.completion items]

/-- The function `lsp_completion(uri, line, col)` with its buffers. -/
def lsp_completion_run (h : Helpers) (g : Option LSPProject) (uri : String) (line col : Int) :
    Outcome :=
  match g.bind (fun proj => proj.ctx), h.lsp_project_get_file g uri with
  | some ctx, some pf =>
    match member_completion_run h ctx pf.source line col with
    | MemberStep.fault => Outcome.fault
    | MemberStep.answer items => completion_answer items
    | MemberStep.fall_through => completion_answer (global_items ctx)
  | _, _ => Outcome.wrote []

/-- The function `lsp_check_file(uri, json_src)` with its buffer and its
pointers: `g_project->ctx` is dereferenced before and after the parse without
a null check, and the notification is written into `malloc(128 * 1024)`. -/
def lsp_check_file_run (ps : ParserSide) (g : Option LSPProject) (uri src : String) : Outcome :=
  let proj := ensure_project ps g
  match proj.ctx with
  | none => Outcome.fault
  | some _ =>
    match (ps.lsp_project_update_file proj uri src).1.ctx with
    | none => Outcome.fault
    | some _ =>
      let calls := (ps.lsp_project_update_file proj uri src).2
      let diagnostics := calls.foldl (fun list c => lsp_on_error list c.1 c.2) []
      if (notification_text uri diagnostics).length ≥ 128 * 1024 then Outcome.fault
      else Outcome.wrote [Response.publishDiagnostics uri (diagnostics.map diagnostic_entry)]

/-! ## Hover, document symbols, references -/

/-- The function `lsp_hover(uri, line, col)`.  The value of the answer is the
markdown block around `text`. -/
def lsp_hover (h : Helpers) (g : Option LSPProject) (uri : String) (line col : Int) :
    List Response :=
  match (h.lsp_project_get_file g uri).bind (fun pf => pf.index) with
  | none => []
  | some idx =>
    let text : Option String :=
      match h.lsp_find_at idx line col with
      | some r =>
        if r.type = RangeType.RANGE_DEFINITION then r.hover_text
        else if r.type = RangeType.RANGE_REFERENCE then
          match h.lsp_find_at idx r.def_line r.def_col with
          | some d => if d.type = RangeType.RANGE_DEFINITION then d.hover_text else none
          | none => none
        else none
      | none => none
    match text with
    | some t => [Response.hover ("```c\n" ++ t ++ "\n```")]
    | none => [Response.null]

/-- The name and kind `lsp_document_symbol` gives a definition range, by the
type of its node; `none` when `name` stays `NULL`. -/
def symbol_name_kind : ASTNode → Option (String × Nat)
  | .func name => some (name, 12)
  | .strct name _ => some (name, 23)
  | .var_decl name => some (name, 13)
  | .const name => some (name, 14)
  | _ => none

/-- The entry `lsp_document_symbol` writes for the range `r`, if any. -/
def symbol_entry (uri : String) (r : LSPRange) : Option SymbolInformation :=
  if r.type = RangeType.RANGE_DEFINITION then
    (symbol_name_kind r.node).map (fun nk =>
      ⟨nk.1, nk.2, uri, r.start_line, r.start_col, r.end_line, r.end_col⟩)
  else none

/-- The function `lsp_document_symbol(uri)`. -/
def lsp_document_symbol (h : Helpers) (g : Option LSPProject) (uri : String) : List Response :=
  match (h.lsp_project_get_file g uri).bind (fun pf => pf.index) with
  | none => [Response.null]
  | some idx => [Response.documentSymbols (idx.head.filterMap (symbol_entry uri))]

/-- One node of the list `lsp_project_find_references` returns. -/
structure ReferenceResult where
  uri : String
  range : LSPRange
  deriving DecidableEq, Repr

/-- The name `lsp_references` looks up for the node under the cursor. -/
def any_name : ASTNode → Option String
  | .func name => some name
  | .var_decl name => some name
  | .const name => some name
  | .strct name _ => some name
  | .expr_var name => some name
  | .expr_call (.expr_var name) => some name
  | _ => none

/-- The function `lsp_references(uri, line, col)`; `find_references` is
`lsp_project_find_references`, defined in `lsp_project.c`. -/
def lsp_references (h : Helpers)
    (find_references : Option LSPProject → String → List ReferenceResult)
    (g : Option LSPProject) (uri : String) (line col : Int) : List Response :=
  match (h.lsp_project_get_file g uri).bind (fun pf => pf.index) with
  | none => []
  | some idx =>
    match h.lsp_find_at idx line col with
    | none => [Response.references []]
    | some r =>
      match any_name r.node with
      | none => [Response.references []]
      | some name =>
        [Response.references ((find_references g name).map (fun curr =>
          ⟨curr.uri, curr.range.start_line, curr.range.start_col,
            curr.range.end_line, curr.range.end_col⟩))]

/-! ## Request decoding and dispatch (`json_rpc.c`) -/

/-- The double quote character. -/
def dquote : Char := Char.ofNat 34

/-- The backslash character. -/
def backslash : Char := Char.ofNat 92

/-- C `strstr(haystack, needle)`: the text from the first occurrence of
`needle` on, or `none` (the null pointer) when there is none. -/
def strstr : List Char → List Char → Option (List Char)
  | [], needle => if needle = [] then some [] else none
  | c :: cs, needle =>
    if (c :: cs).take needle.length = needle then some (c :: cs) else strstr cs needle

/-- The helper `skip_ws`: the text after the leading whitespace. -/
def skip_ws (p : List Char) : List Char := p.dropWhile isspace

/-- The loop of `get_json_string` that looks for the end of the value,
`while (*cursor) { if (*cursor == '"' && *(cursor - 1) != '\\') break; cursor++; }`:
the characters from `start` up to the stop; `prev` is `*(cursor - 1)`. -/
def scan_value : Char → List Char → List Char
  | _, [] => []
  | prev, c :: cs =>
    if c = dquote ∧ prev ≠ backslash then [] else c :: scan_value c cs

/-- The body of the `while (p)` loop of `get_json_string` for one occurrence
of the key pattern; `cursor` is the text after the pattern.  `none` is a false
positive. -/
def value_after_key (cursor : List Char) : Option String :=
  match skip_ws cursor with
  | ':' :: cursor =>
    match skip_ws cursor with
    | c :: start => if c = dquote then some (String.mk (scan_value c start)) else none
    | [] => none
  | _ => none

/-- The `while (p)` loop of `get_json_string` on the text from `p` on.  The
loop visits the occurrences of the pattern from left to right
(`p = strstr(p + 1, key_pattern)`); here every position is visited and tested
for an occurrence. -/
def get_json_string_loop (key_pattern : List Char) : List Char → Option String
  | [] => none
  | c :: cs =>
    if (c :: cs).take key_pattern.length = key_pattern then
      match value_after_key ((c :: cs).drop key_pattern.length) with
      | some res => some res
      | none => get_json_string_loop key_pattern cs
    else get_json_string_loop key_pattern cs

/-- The function `get_json_string(json, key)`; the key pattern is the key
between double quotes. -/
def get_json_string (json : List Char) (key : String) : Option String :=
  get_json_string_loop (dquote :: key.toList ++ [dquote]) json

/-- The unescape loop of `get_text_content`.  A lone backslash at the end
makes the C loop copy the terminator, which ends the result. -/
def unescape : List Char → List Char
  | [] => []
  | [c] => if c = backslash then [] else [c]
  | c :: d :: rest =>
    if c = backslash then
      (if d = 'n' then '\n'
        else if d = 'r' then '\r'
        else if d = 't' then '\t'
        else if d = dquote then dquote
        else if d = backslash then backslash
        else d) :: unescape rest
    else c :: unescape (d :: rest)

/-- The function `get_text_content(json)`. -/
def get_text_content (json : List Char) : Option String :=
  (get_json_string json "text").map (fun res => String.mk (unescape res.toList))

/-- The digits loop of C `atoi`. -/
def atoi_digits : List Char → Int → Int
  | [], acc => acc
  | c :: cs, acc =>
    if c.isDigit then atoi_digits cs (acc * 10 + ((c.toNat : Int) - 48)) else acc

/-- The value of a C `long` (64 bits) that `strtol` returns for a decimal
number: the number itself, or the nearest bound on overflow. -/
def clamp_long (n : Int) : Int := max (-(2 ^ 63)) (min n (2 ^ 63 - 1))

/-- The conversion of a `long` to a 32-bit `int`. -/
def wrap_int32 (n : Int) : Int := (n + 2 ^ 31) % 2 ^ 32 - 2 ^ 31

/-- C `atoi` as the C library computes it, `(int) strtol(p, NULL, 10)`:
leading whitespace, an optional sign, decimal digits; a number outside the
range of `int` comes back reduced to 32 bits. -/
def atoi (p : List Char) : Int :=
  wrap_int32 (clamp_long
    (match p.dropWhile isspace with
      | '-' :: rest => - atoi_digits rest 0
      | '+' :: rest => atoi_digits rest 0
      | rest => atoi_digits rest 0))

/-- One half of `get_json_position`: the integer after the first occurrence of
the quoted key and a colon; `dflt`, the value the caller put in the variable,
when the key or the colon is missing. -/
def json_int (json : List Char) (key : String) (dflt : Int) : Int :=
  match strstr json (dquote :: key.toList ++ [dquote]) with
  | some p =>
    match skip_ws (p.drop (key.toList.length + 2)) with
    | ':' :: rest => atoi (skip_ws rest)
    | _ => dflt
  | none => dflt

/-- The function `get_json_position(json, &line, &col)` called with
`line = 0, col = 0`. -/
def get_json_position (json : List Char) : Int × Int :=
  (json_int json "line" 0, json_int json "character" 0)

/-- A call `handle_request` makes into the server. -/
inductive HandlerCall where
  | project_init (root : String)
  | check_file (uri text : String)
  | goto_definition (uri : String) (line col : Int)
  | hover (uri : String) (line col : Int)
  | completion (uri : String) (line col : Int)
  | document_symbol (uri : String)
  | references (uri : String) (line col : Int)
  | signature_help (uri : String) (line col : Int)
  deriving DecidableEq, Repr

/-- The test `strstr(json_str, name)` of `handle_request`. -/
def mentions (json : List Char) (name : String) : Bool :=
  (strstr json name.toList).isSome

/-- The calls one `if (strstr(json_str, name))` block of `handle_request`
makes for a handler that takes a URI and a position. -/
def position_block (json : List Char) (name : String)
    (call : String → Int → Int → HandlerCall) : List HandlerCall :=
  if mentions json name then
    match get_json_string json "uri" with
    | some uri => [call uri (get_json_position json).1 (get_json_position json).2]
    | none => []
  else []

/-- The root directory the `initialize` block passes to `lsp_project_init`. -/
def init_root (json : List Char) : String :=
  let root :=
    match get_json_string json "rootPath" with
    | some root => some root
    | none => get_json_string json "rootUri"
  match root with
  | some root =>
    if root.toList.take 7 = "file://".toList then String.mk (root.toList.drop 7) else root
  | none => "."

/-- The control flow of `handle_request(json_str)`: the handlers it calls, in
call order, with their arguments.  It depends on the message text only. -/
def dispatch (json : List Char) : List HandlerCall :=
  if mentions json "initialize" then [HandlerCall.project_init (init_root json)]
  else
    (if mentions json "didOpen" ∨ mentions json "didChange" then
      match get_json_string json "uri", get_text_content json with
      | some uri, some text => [HandlerCall.check_file uri text]
      | _, _ => []
    else []) ++
    position_block json "textDocument/definition" HandlerCall.goto_definition ++
    position_block json "textDocument/hover" HandlerCall.hover ++
    position_block json "textDocument/completion" HandlerCall.completion ++
    (if mentions json "textDocument/documentSymbol" then
      match get_json_string json "uri" with
      | some uri => [HandlerCall.document_symbol uri]
      | none => []
    else []) ++
    position_block json "textDocument/references" HandlerCall.references ++
    position_block json "textDocument/signatureHelp" HandlerCall.signature_help

/-- The functions behind the handlers that are defined outside
`lsp_analysis.c` and `json_rpc.c`. -/
structure Server where
  helpers : Helpers
  parser_side : ParserSide
  lsp_project_find_references : Option LSPProject → String → List ReferenceResult

/-- One handler call: the new value of `g_project` and the messages written.
`initialize` replaces the project by `lsp_project_init(root)` and writes the
capabilities. -/
def run_call (sv : Server) (g : Option LSPProject) : HandlerCall → Option LSPProject × List Response
  | .project_init root => (some (sv.parser_side.lsp_project_init root), [Response.capabilities])
  | .check_file uri text => lsp_check_file sv.parser_side g uri text
  | .goto_definition uri line col => (g, lsp_goto_definition sv.helpers g uri line col)
  | .hover uri line col => (g, lsp_hover sv.helpers g uri line col)
  | .completion uri line col => (g, lsp_completion sv.helpers g uri line col)
  | .document_symbol uri => (g, lsp_document_symbol sv.helpers g uri)
  | .references uri line col =>
    (g, lsp_references sv.helpers sv.lsp_project_find_references g uri line col)
  | .signature_help uri line col => (g, lsp_signature_help sv.helpers g uri line col)

/-- The function `handle_request(json_str)`: the new value of `g_project` and
the messages written, in order. -/
def handle_request (sv : Server) (g : Option LSPProject) (json_str : String) :
    Option LSPProject × List Response :=
  (dispatch json_str.toList).foldl
    (fun st call => ((run_call sv st.1 call).1, st.2 ++ (run_call sv st.1 call).2)) (g, [])

/-! ## Messages, in the words of the specification -/

/-- The text `name` occurs somewhere in the message `json`: in the method
field, in the document text, in a URI, or anywhere else. -/
def occurs_in (name : String) (json : List Char) : Prop :=
  ∃ pre post, json = pre ++ name.toList ++ post

/-- JSON string escaping of a document text: newline as `\n`, carriage return
as `\r`, tab as `\t`, the double quote and the backslash behind a backslash,
every other character unchanged. -/
def json_escape : List Char → List Char
  | [] => []
  | c :: cs =>
    (if c = '\n' then [backslash, 'n']
      else if c = '\r' then [backslash, 'r']
      else if c = '\t' then [backslash, 't']
      else if c = dquote then [backslash, dquote]
      else if c = backslash then [backslash, backslash]
      else [c]) ++ json_escape cs

/-- A `didChange` notification for `uri` whose new document text is `text`,
written as a JSON string value under the key `text`. -/
def did_change_message (uri : String) (text : List Char) : String :=
  String.mk
    ("\x7b\"jsonrpc\":\"2.0\",\"method\":\"textDocument/didChange\",\"params\":\x7b\"textDocument\":\x7b\"uri\":\"".toList
      ++ uri.toList ++ "\"\x7d,\"contentChanges\":[\x7b\"text\":\"".toList
      ++ json_escape text ++ "\"\x7d]\x7d\x7d".toList)

/-! ## Cursor positions, in the words of the specification -/

/-- Line `n` (0-based) of a text: the characters after the `n`-th newline up
to the next newline or the end of the text; `none` when the text has fewer
lines. -/
def nth_line : List Char → Nat → Option (List Char)
  | s, 0 => some (s.takeWhile (fun c => c != '\n'))
  | s, n + 1 =>
    match s.dropWhile (fun c => c != '\n') with
    | [] => none
    | _ :: rest => nth_line rest n

/-- The receiver of a member access, read off the text `before` the dot: the
longest run of identifier characters that ends where the text ends, blanks
(spaces and tabs) between it and the dot aside.  Empty when there is none. -/
def receiver (before : List Char) : List Char :=
  ((before.reverse.dropWhile is_blank).takeWhile is_ident_char).reverse

/-- The declared type of a symbol is `ty`: the string form of its type
information when it has one, else its type name. -/
def has_declared_type (h : Helpers) (sym : Symbol) (ty : String) : Prop :=
  (∃ ti, sym.type_info = some ti ∧ h.type_to_string (some ti) = some ty) ∨
    (sym.type_info = none ∧ sym.type_name = some ty)

/-- The text `bare` is the type name `ty` without a leading struct qualifier
and without its pointer suffix: `ty` is `qual ++ bare ++ suffix`, where `qual`
is `struct ` (or nothing, when `ty` does not start with it), `bare` holds no
`*`, and `suffix` is empty or starts at the first `*`. -/
def is_bare_type_of (ty : String) (bare : List Char) : Prop :=
  ∃ qual suffix, ty.toList = qual ++ bare ++ suffix ∧
    (qual = "struct ".toList ∨ (qual = [] ∧ ty.toList.take 7 ≠ "struct ".toList)) ∧
    (∀ c ∈ bare, c ≠ '*') ∧ (suffix = [] ∨ suffix.head? = some '*')

/-- The document text from its start up to the cursor `(line, col)`; `none`
when the cursor is not inside the text (no such line, or `col` beyond the end
of the line). -/
def text_before_cursor : List Char → Nat → Nat → Option (List Char)
  | s, 0, col =>
    if col ≤ (s.takeWhile (fun c => c != '\n')).length then
      some ((s.takeWhile (fun c => c != '\n')).take col)
    else none
  | s, line + 1, col =>
    match s.dropWhile (fun c => c != '\n') with
    | [] => none
    | newline :: rest =>
      (text_before_cursor rest line col).map
        (fun t => s.takeWhile (fun c => c != '\n') ++ newline :: t)

/-- The text of the cursor line to the left of the dot at `col - 1`, as the
code addresses it: the `col - 1` characters from the start of the line. -/
def text_before_dot (s : List Char) (line col : Int) : List Char :=
  (s.drop (seek_line s 0 line)).take (col - 1).toNat

/-- Reading `buf[0]` .. `buf[r.length - 1]` from right to left gives the list
`r`: what a backward loop over the buffer sees. -/
def reads_back (buf : Nat → Char) (r : List Char) : Prop :=
  ∀ i, i < r.length → r[r.length - 1 - i]? = some (buf i)

/-! ## The two tiers, in the words of the specification -/

/-- The local tier resolves the range `r` under the cursor: `r` is a reference
with a populated definition site, the range at that site is a definition, and
the identifier of `r` equals the name of that definition. -/
def local_tier_resolves (h : Helpers) (idx : LSPIndex) (r : LSPRange) : Prop :=
  r.type = RangeType.RANGE_REFERENCE ∧ r.def_line ≥ 0 ∧
    ∃ d name, h.lsp_find_at idx r.def_line r.def_col = some d ∧
      d.type = RangeType.RANGE_DEFINITION ∧
      ref_name r.node = some name ∧ def_name d.node = some name

/-- The global tier resolves the range `r`: its node names an identifier and
the project-wide lookup of that name yields a URI and a range. -/
def global_tier_resolves (h : Helpers) (g : Option LSPProject) (r : LSPRange) : Prop :=
  ∃ name duri drange, ref_name r.node = some name ∧
    h.lsp_project_find_definition g name = ⟨some duri, some drange⟩

/-! ## A reference instance of the helpers

The helpers below follow the specification (sections 4.2 and 4.3) and serve to
run the embedded functions on concrete projects. -/

/-- Modelled from the spec: `find_at` of section 4.2 (`lsp_index.c` is
absent): the first range, in index order, whose `[start, end)` contains the
position. -/
def spec_find_at (idx : LSPIndex) (line col : Int) : Option LSPRange :=
  idx.head.find? (fun r =>
    (r.start_line < line ∨ (r.start_line = line ∧ r.start_col ≤ col)) ∧
    (line < r.end_line ∨ (line = r.end_line ∧ col < r.end_col)))

/-- Modelled from the spec: the file table is keyed by URI
(`lsp_project.c` is absent). -/
def spec_get_file (g : Option LSPProject) (uri : String) : Option ProjectFile :=
  g.bind (fun proj => proj.files.find? (fun f => f.uri == uri))

/-- The node declares the function or the struct `name`, the kinds of the
project-wide registries. -/
def declares_global (name : String) : ASTNode → Bool
  | .func n => n == name
  | .strct n _ => n == name
  | _ => false

/-- Modelled from the spec: the global lookup of section 4.3
(`lsp_project.c` is absent): the first tracked file with a definition range
of a function or struct of that name, and that range. -/
def spec_find_definition (g : Option LSPProject) (name : String) : DefinitionResult :=
  match g with
  | none => ⟨none, none⟩
  | some proj =>
    match proj.files.filterMap (fun f =>
        (f.index.bind (fun idx => idx.head.find? (fun r =>
          r.type = RangeType.RANGE_DEFINITION ∧ declares_global name r.node))).map
          (fun r => (f.uri, r))) with
    | (u, r) :: _ => ⟨some u, some r⟩
    | [] => ⟨none, none⟩

/-- A table of type objects for the examples: `1` is `Point`, `2` is `int`. -/
def demo_type_to_string : Option TypePtr → Option String
  | some ⟨1⟩ => some "Point"
  | some ⟨2⟩ => some "int"
  | _ => none

/-- The helpers used in the examples. -/
def demo_helpers : Helpers where
  lsp_project_get_file := spec_get_file
  lsp_find_at := spec_find_at
  lsp_project_find_definition := spec_find_definition
  type_to_string := demo_type_to_string
  find_symbol_in_all := fun ctx name =>
    (ctx.scopes.find? (fun e => e.1 == name)).map (fun e => e.2)

/-- The index of the four-line file

    fn f() {}
    fn g() { var f = 1; f; }
    fn k() { f(); h; }
    fn m() { var n = 0; }

with the four function definitions, the local variable `f` of `g` and the
reference to it, a call of the global `f` that escaped local resolution, a
reference to an unknown `h`, and the local variable `n` of `m`. -/
def shadow_index : LSPIndex :=
  ⟨[⟨0, 3, 0, 4, .RANGE_DEFINITION, -1, -1, some "fn f()", .func "f"⟩,
    ⟨1, 3, 1, 4, .RANGE_DEFINITION, -1, -1, some "fn g()", .func "g"⟩,
    ⟨1, 13, 1, 14, .RANGE_DEFINITION, -1, -1, some "var f", .var_decl "f"⟩,
    ⟨1, 20, 1, 21, .RANGE_REFERENCE, 1, 13, none, .expr_var "f"⟩,
    ⟨2, 3, 2, 4, .RANGE_DEFINITION, -1, -1, some "fn k()", .func "k"⟩,
    ⟨2, 9, 2, 10, .RANGE_REFERENCE, -1, -1, none, .expr_call (.expr_var "f")⟩,
    ⟨2, 14, 2, 15, .RANGE_REFERENCE, -1, -1, none, .expr_var "h"⟩,
    ⟨3, 3, 3, 4, .RANGE_DEFINITION, -1, -1, some "fn m()", .func "m"⟩,
    ⟨3, 13, 3, 14, .RANGE_DEFINITION, -1, -1, some "var n", .var_decl "n"⟩]⟩

/-- The tracked file of `shadow_index`. -/
def shadow_file : ProjectFile :=
  ⟨"/w/a.zc", "file:///w/a.zc",
    some "fn f() \x7b\x7d\nfn g() \x7b var f = 1; f; \x7d\nfn k() \x7b f(); h; \x7d\nfn m() \x7b var n = 0; \x7d",
    some shadow_index⟩

/-- The project that tracks `shadow_file`. -/
def shadow_project : LSPProject :=
  ⟨some ⟨[⟨"f", [], none⟩, ⟨"g", [], none⟩, ⟨"k", [], none⟩, ⟨"m", [], none⟩], [], []⟩,
   [shadow_file], "/w"⟩

/-- A parser stand-in for the examples: it reports one error, at the 1-based
position (1, col), for every `?` of the text at column `col`, and one error at
position (0, 0) when the text is empty; the project is left as it is. -/
def demo_parse_side : ParserSide where
  getcwd := some "/w"
  lsp_project_init := fun root => ⟨some ⟨[], [], []⟩, [], root⟩
  lsp_project_update_file := fun proj _ src =>
    (proj,
      if src.toList = [] then [(⟨0, 0⟩, "empty file")]
      else ((List.range src.toList.length).filter (fun i => char_at src.toList i = '?')).map
        (fun i => (⟨1, (i : Int) + 1⟩, "unexpected token")))

/-- A project with the functions `add(int, int) -> int` and `now()` and one
tracked file that calls them. -/
def call_project : LSPProject :=
  ⟨some ⟨[⟨"add", [some ⟨2⟩, some ⟨2⟩], some ⟨2⟩⟩, ⟨"now", [], none⟩], [], []⟩,
   [⟨"/w/b.zc", "file:///w/b.zc", some "add(now(), 1); add(1, ", some ⟨[]⟩⟩],
   "/w"⟩

/-- The project of the scenario `struct Point`, `fn make`, `fn main` with the
local `p` of type `Point`, and a second file that accesses an undeclared `q`. -/
def point_project : LSPProject :=
  ⟨some ⟨[⟨"make", [], some ⟨1⟩⟩, ⟨"main", [], none⟩],
      [⟨"Point", some (.strct "Point" [⟨"x", "int"⟩, ⟨"y", "int"⟩])⟩],
      [("p", ⟨some ⟨1⟩, none⟩)]⟩,
   [⟨"/w/p.zc", "file:///w/p.zc",
      some "struct Point \x7b x: int; y: int; \x7d\nfn make() -> Point \x7b \x7d\nfn main() \x7b var p = make(); p. \x7d",
      some ⟨[]⟩⟩,
    ⟨"/w/q.zc", "file:///w/q.zc", some "fn t() \x7b q. \x7d", some ⟨[]⟩⟩],
   "/w"⟩

/-- A project whose registries are empty, tracking the one-line file `x.`. -/
def bare_project : LSPProject :=
  ⟨some ⟨[], [], []⟩, [⟨"/w/x.zc", "file:///w/x.zc", some "x.", some ⟨[]⟩⟩], "/w"⟩

/-- Modelled from the spec: `find_references` of section 4.4
(`lsp_project.c` is absent): every reference range of every tracked file
whose identifier is `name`, files in table order. -/
def spec_find_references (g : Option LSPProject) (name : String) : List ReferenceResult :=
  match g with
  | none => []
  | some proj =>
    (proj.files.map (fun f =>
      match f.index with
      | some idx =>
        (idx.head.filter (fun r =>
          r.type = RangeType.RANGE_REFERENCE ∧ ref_name r.node = some name)).map
          (fun r => (⟨f.uri, r⟩ : ReferenceResult))
      | none => [])).flatten

/-- The server used in the examples. -/
def demo_server : Server := ⟨demo_helpers, demo_parse_side, spec_find_references⟩

/-- The index of a file whose line 0 declares `var y` at columns 4..5 and
whose line 1 starts with a reference to `x`; the definition site recorded for
`x` is (0, 4), the place of its declaration in another file. -/
def stale_index : LSPIndex :=
  ⟨[⟨0, 4, 0, 5, .RANGE_DEFINITION, -1, -1, some "var y: int", .var_decl "y"⟩,
    ⟨1, 0, 1, 1, .RANGE_REFERENCE, 0, 4, none, .expr_var "x"⟩]⟩

/-- The project that tracks the file of `stale_index`. -/
def stale_project : LSPProject :=
  ⟨some ⟨[], [], []⟩,
   [⟨"/w/s.zc", "file:///w/s.zc", some "var y = 1;\nx;", some stale_index⟩], "/w"⟩

/-- A project with the function `add(int, int) -> int` and a file whose call
of `add` spans two lines, followed by a closed call on a line of its own. -/
def multiline_project : LSPProject :=
  ⟨some ⟨[⟨"add", [some ⟨2⟩, some ⟨2⟩], some ⟨2⟩⟩], [], []⟩,
   [⟨"/w/c.zc", "file:///w/c.zc", some "add(1,\n  2", some ⟨[]⟩⟩,
    ⟨"/w/d.zc", "file:///w/d.zc", some "add(1, 2)\nadd", some ⟨[]⟩⟩],
   "/w"⟩

/-- A `didChange` notification that lacks the URI of its document; the new
text declares a function named `initialize`. -/
def no_uri_message : String :=
  "\x7b\"jsonrpc\":\"2.0\",\"method\":\"textDocument/didChange\",\"params\":\x7b\"contentChanges\":[\x7b\"text\":\"fn initialize() \x7b\x7d\"\x7d]\x7d\x7d"

/-- A hover request that lacks the URI of its document. -/
def no_uri_hover : String :=
  "\x7b\"jsonrpc\":\"2.0\",\"id\":7,\"method\":\"textDocument/hover\",\"params\":\x7b\"position\":\x7b\"line\":1,\"character\":20\x7d\x7d\x7d"

/-- A well-formed hover request for (1, 20) of the shadowing file. -/
def hover_request : String :=
  "\x7b\"jsonrpc\":\"2.0\",\"id\":7,\"method\":\"textDocument/hover\",\"params\":\x7b\"textDocument\":\x7b\"uri\":\"file:///w/a.zc\"\x7d,\"position\":\x7b\"line\":1,\"character\":20\x7d\x7d\x7d"

/-- An identifier of 300 characters. -/
def long_name : List Char := List.replicate 300 'a'

/-- A project that declares a variable of type `Point` under the name
`long_name` and tracks a file whose only line accesses a member of it. -/
def long_name_project : LSPProject :=
  ⟨some ⟨[], [⟨"Point", some (.strct "Point" [⟨"x", "int"⟩, ⟨"y", "int"⟩])⟩],
      [(String.mk long_name, ⟨none, some "Point"⟩)]⟩,
   [⟨"/w/l.zc", "file:///w/l.zc", some (String.mk (long_name ++ ['.'])), some ⟨[]⟩⟩],
   "/w"⟩

/-- A project with the function `mk` that tracks the one-line file `mk`. -/
def tiny_project : LSPProject :=
  ⟨some ⟨[⟨"mk", [], none⟩], [], []⟩,
   [⟨"/w/mk.zc", "file:///w/mk.zc", some "mk", some ⟨[]⟩⟩], "/w"⟩

/-- A project in which `r` is declared with the type name `struct Point*`
and `Point` has three fields; its file accesses a member of `r`. -/
def pointer_project : LSPProject :=
  ⟨some ⟨[⟨"walk", [], none⟩],
      [⟨"Point", some (.strct "Point" [⟨"x", "int"⟩, ⟨"y", "int"⟩, ⟨"next", "Point*"⟩])⟩],
      [("r", ⟨none, some "struct Point*"⟩)]⟩,
   [⟨"/w/r.zc", "file:///w/r.zc", some "fn walk(r: Point*) \x7b\n  r.\n\x7d", some ⟨[]⟩⟩],
   "/w"⟩

/-- A parser stand-in that reports one error, `unexpected token` at the
1-based position (1, 1), for every character of the text. -/
def flood_parse_side : ParserSide where
  getcwd := some "/w"
  lsp_project_init := fun root => ⟨some ⟨[], [], []⟩, [], root⟩
  lsp_project_update_file := fun proj _ src =>
    (proj, src.toList.map (fun _ => ((⟨1, 1⟩ : Token), "unexpected token")))

/-! ## Theorems -/

/-! ### Go to definition -/

/-- C2. Global tier fallback: when the range under the cursor is a reference
the local tier does not resolve (no definition site, or no definition range at
the site, or a definition of another name), its node is a variable reference
or a call of a variable, and the project-wide lookup of that name yields a URI
and a range, `lsp_goto_definition` answers once, with that URI and the start
and end of that range. -/
theorem goto_definition_global_fallback (h : Helpers) (g : Option LSPProject)
    (uri : String) (line col : Int) (pf : ProjectFile) (idx : LSPIndex)
    (r : LSPRange) (name duri : String) (drange : LSPRange)
    (hfile : h.lsp_project_get_file g uri = some pf) (hidx : pf.index = some idx)
    (hr : h.lsp_find_at idx line col = some r)
    (href : r.type = RangeType.RANGE_REFERENCE)
    (hlocal : r.def_line < 0 ∨
      ∀ d, h.lsp_find_at idx r.def_line r.def_col = some d →
        d.type ≠ RangeType.RANGE_DEFINITION ∨ def_name d.node ≠ some name)
    (hnode : r.node = ASTNode.expr_var name ∨ r.node = ASTNode.expr_call (ASTNode.expr_var name))
    (hglobal : h.lsp_project_find_definition g name = ⟨some duri, some drange⟩) :
    lsp_goto_definition h g uri line col =
      [Response.location duri drange.start_line drange.start_col
        drange.end_line drange.end_col] := by
  have hrn : ref_name r.node = some name := by
    rcases hnode with hn | hn <;> simp [hn, ref_name]
  have hglob : goto_global h g (some r) =
      [Response.location duri drange.start_line drange.start_col
        drange.end_line drange.end_col] := by
    simp [goto_global, hrn, hglobal]
  have hnotloc : r.def_line ≥ 0 → is_local h idx r = false := by
    intro hsite
    rcases hlocal with hneg | hall
    · omega
    · unfold is_local
      cases hfd : h.lsp_find_at idx r.def_line r.def_col with
      | none => rfl
      | some d =>
        rcases hall d hfd with hty | hnm
        · simp [hty]
        · by_cases hty : d.type = RangeType.RANGE_DEFINITION
          · simp only [hty, if_true, hrn]
            cases hdn : def_name d.node with
            | none => rfl
            | some dn =>
              have hne : name ≠ dn := by
                intro heq
                apply hnm
                rw [hdn, heq]
              simpa using hne
          · simp [hty]
  unfold lsp_goto_definition
  simp only [hfile, hidx, hr, Option.bind, href]
  by_cases hsite : r.def_line ≥ 0
  · simp [hsite, hnotloc hsite, hglob]
  · simp [hsite, hglob]

/-- Witness of C2: the call `f()` inside `k` carries no definition site, and
the project-wide lookup of `f` finds `fn f` at (0, 3)-(0, 4). -/
theorem goto_definition_global_fallback_witness :
    lsp_goto_definition demo_helpers (some shadow_project) "file:///w/a.zc" 2 9 =
      [Response.location "file:///w/a.zc" 0 3 0 4] :=
  goto_definition_global_fallback demo_helpers (some shadow_project) "file:///w/a.zc" 2 9
    shadow_file
    shadow_index
    ⟨2, 9, 2, 10, .RANGE_REFERENCE, -1, -1, none, .expr_call (.expr_var "f")⟩
    "f" "file:///w/a.zc"
    ⟨0, 3, 0, 4, .RANGE_DEFINITION, -1, -1, some "fn f()", .func "f"⟩
    (by decide) rfl (by decide) rfl (Or.inl (by decide)) (Or.inr rfl) (by decide)

/-- Counterexample to C3 as stated: at (3, 13) of the shadowing file a range
lies under the cursor, the declaration of the local `n`; neither tier resolves
a name there (the range is no reference, its node names no identifier for the
global lookup, and the project-wide lookup knows no `n`), and yet the answer
is a location, not the null result. -/
theorem goto_definition_on_definition_not_null :
    spec_find_at shadow_index 3 13 =
        some ⟨3, 13, 3, 14, .RANGE_DEFINITION, -1, -1, some "var n", .var_decl "n"⟩ ∧
      ¬ local_tier_resolves demo_helpers shadow_index
          ⟨3, 13, 3, 14, .RANGE_DEFINITION, -1, -1, some "var n", .var_decl "n"⟩ ∧
      ¬ global_tier_resolves demo_helpers (some shadow_project)
          ⟨3, 13, 3, 14, .RANGE_DEFINITION, -1, -1, some "var n", .var_decl "n"⟩ ∧
      spec_find_definition (some shadow_project) "n" = ⟨none, none⟩ ∧
      lsp_goto_definition demo_helpers (some shadow_project) "file:///w/a.zc" 3 13 =
        [Response.location "file:///w/a.zc" 3 13 3 14] ∧
      lsp_goto_definition demo_helpers (some shadow_project) "file:///w/a.zc" 3 13 ≠
        [Response.null] := by
  refine ⟨by decide, ?_, ?_, by decide, by decide, by decide⟩
  · rintro ⟨hty, -⟩
    exact absurd hty (by decide)
  · rintro ⟨name, duri, drange, hn, -⟩
    simp [ref_name] at hn

/-- C3, amended. For every indexed file and every cursor position
`lsp_goto_definition` writes exactly one response; it is the null result when
no range lies under the cursor, and when the range under the cursor is a
reference that neither the local tier nor the global tier resolves; a
definition range under the cursor is answered with its own location. -/
theorem goto_definition_one_response (h : Helpers) (g : Option LSPProject)
    (uri : String) (line col : Int) (pf : ProjectFile) (idx : LSPIndex)
    (hfile : h.lsp_project_get_file g uri = some pf) (hidx : pf.index = some idx) :
    (∃ resp, lsp_goto_definition h g uri line col = [resp]) ∧
    (h.lsp_find_at idx line col = none →
      lsp_goto_definition h g uri line col = [Response.null]) ∧
    (∀ r, h.lsp_find_at idx line col = some r → r.type = RangeType.RANGE_REFERENCE →
      ¬ local_tier_resolves h idx r → ¬ global_tier_resolves h g r →
      lsp_goto_definition h g uri line col = [Response.null]) ∧
    (∀ r, h.lsp_find_at idx line col = some r → r.type = RangeType.RANGE_DEFINITION →
      lsp_goto_definition h g uri line col =
        [Response.location uri r.start_line r.start_col r.end_line r.end_col]) := by
  have hone : ∀ r, ∃ resp, goto_global h g r = [resp] := by
    intro r
    unfold goto_global
    split
    · split
      · split
        · exact ⟨_, rfl⟩
        · exact ⟨_, rfl⟩
      · exact ⟨_, rfl⟩
    · exact ⟨_, rfl⟩
  have hnull : ∀ r, ¬ global_tier_resolves h g r → goto_global h g (some r) = [Response.null] := by
    intro r hng
    unfold goto_global
    simp only
    split
    · rename_i name hn
      split
      · rename_i duri drange hfd
        exact absurd ⟨name, duri, drange, hn, hfd⟩ hng
      · rfl
    · rfl
  refine ⟨?_, ?_, ?_, ?_⟩
  · unfold lsp_goto_definition
    simp only [hfile, hidx, Option.bind]
    split
    · split
      · exact ⟨_, rfl⟩
      · split
        · split
          · exact ⟨_, rfl⟩
          · exact hone _
        · exact hone _
    · exact hone _
  · intro hnone
    simp [lsp_goto_definition, hfile, hidx, hnone, goto_global]
  · intro r hr href hnl hng
    have hloc : r.def_line ≥ 0 → is_local h idx r = false := by
      intro hsite
      cases hb : is_local h idx r with
      | false => rfl
      | true =>
        exfalso
        apply hnl
        refine ⟨href, hsite, ?_⟩
        unfold is_local at hb
        split at hb
        · rename_i d hfd
          split at hb
          · rename_i hty
            split at hb
            · rename_i rn dn hrn hdn
              have : rn = dn := by simpa using hb
              exact ⟨d, rn, hfd, hty, hrn, by rw [hdn, this]⟩
            · exact absurd hb (by simp)
          · exact absurd hb (by simp)
        · exact absurd hb (by simp)
    unfold lsp_goto_definition
    simp only [hfile, hidx, hr, Option.bind, href]
    by_cases hsite : r.def_line ≥ 0
    · simp [hsite, hloc hsite, hnull r hng]
    · simp [hsite, hnull r hng]
  · intro r hr hdef
    simp [lsp_goto_definition, hfile, hidx, hr, hdef]

/-- Witness of C3 (amended): the reference to the unknown `h` at (2, 14) is
answered with the null result, and the theorem holds at that cursor. -/
theorem goto_definition_one_response_witness :
    lsp_goto_definition demo_helpers (some shadow_project) "file:///w/a.zc" 2 14 =
        [Response.null] ∧
      ((∃ resp, lsp_goto_definition demo_helpers (some shadow_project)
          "file:///w/a.zc" 2 14 = [resp]) ∧
        (demo_helpers.lsp_find_at shadow_index 2 14 = none →
          lsp_goto_definition demo_helpers (some shadow_project) "file:///w/a.zc" 2 14 =
            [Response.null]) ∧
        (∀ r, demo_helpers.lsp_find_at shadow_index 2 14 = some r →
          r.type = RangeType.RANGE_REFERENCE →
          ¬ local_tier_resolves demo_helpers shadow_index r →
          ¬ global_tier_resolves demo_helpers (some shadow_project) r →
          lsp_goto_definition demo_helpers (some shadow_project) "file:///w/a.zc" 2 14 =
            [Response.null]) ∧
        (∀ r, demo_helpers.lsp_find_at shadow_index 2 14 = some r →
          r.type = RangeType.RANGE_DEFINITION →
          lsp_goto_definition demo_helpers (some shadow_project) "file:///w/a.zc" 2 14 =
            [Response.location "file:///w/a.zc" r.start_line r.start_col
              r.end_line r.end_col])) :=
  ⟨by decide,
   goto_definition_one_response demo_helpers (some shadow_project) "file:///w/a.zc" 2 14
    shadow_file
    shadow_index (by decide) rfl⟩

/-! ### Completion -/

/-- A backward reading of `c :: cs` is, one place further left, a backward
reading of `cs`. -/
theorem reads_back_tail (buf : Nat → Char) (c : Char) (cs : List Char)
    (hb : reads_back buf (c :: cs)) : reads_back buf cs := by
  intro i hi
  have := hb i (by simp; omega)
  simp only [List.length_cons] at this
  have h2 : cs.length + 1 - 1 - i = (cs.length - 1 - i) + 1 := by omega
  rw [h2, List.getElem?_cons_succ] at this
  exact this

/-- A backward reading of `a ++ b` continues as a backward reading of `b`. -/
theorem reads_back_suffix (buf : Nat → Char) (a b : List Char)
    (hb : reads_back buf (a ++ b)) : reads_back buf b := by
  induction a with
  | nil => simpa using hb
  | cons c cs ih => exact ih (reads_back_tail buf c _ hb)

/-- The rightmost character read is the head of the list. -/
theorem reads_back_head (buf : Nat → Char) (c : Char) (cs : List Char)
    (hb : reads_back buf (c :: cs)) : buf cs.length = c := by
  have := hb cs.length (by simp)
  simp at this
  exact this.symm

/-- A backward loop over a buffer stops where `dropWhile` stops on the
backward reading. -/
theorem scan_left_eq_dropWhile (p : Char → Bool) (buf : Nat → Char) (r : List Char)
    (hb : reads_back buf r) : scan_left p buf r.length = (r.dropWhile p).length := by
  induction r with
  | nil => rfl
  | cons c cs ih =>
    have hc := reads_back_head buf c cs hb
    simp only [List.length_cons, scan_left, hc]
    by_cases hp : p c = true
    · simp [hp, ih (reads_back_tail buf c cs hb)]
    · simp [hp]

/-- The characters copied out of the buffer are the skipped run, left to
right. -/
theorem copy_chars_eq (buf : Nat → Char) (a b : List Char) (hb : reads_back buf (a ++ b)) :
    copy_chars buf b.length a.length = String.mk a.reverse := by
  unfold copy_chars
  congr 1
  apply List.ext_getElem?
  intro j
  by_cases hj : j < a.length
  · have h1 := hb (b.length + j) (by simp; omega)
    have h2 : (a ++ b).length - 1 - (b.length + j) = a.length - 1 - j := by simp; omega
    rw [h2, List.getElem?_append_left (by omega)] at h1
    rw [List.getElem?_map, List.getElem?_range hj]
    simp only [Option.map_some']
    rw [← h1, List.getElem?_reverse hj]
  · rw [List.getElem?_eq_none (by simp; omega), List.getElem?_eq_none (by simp; omega)]

/-- Inside the string `char_at` is the character stored there. -/
theorem char_at_lt (s : List Char) (k : Nat) (hk : k < s.length) : s[k]? = some (char_at s k) := by
  simp [char_at, List.getElem?_eq_getElem hk]

/-- A read that is not the terminator is a read inside the string. -/
theorem char_at_ne_zero_lt (s : List Char) (k : Nat) (hk : char_at s k ≠ Char.ofNat 0) :
    k < s.length := by
  by_contra hge
  apply hk
  simp [char_at, List.getElem?_eq_none (Nat.le_of_not_lt hge)]

/-- The `n` characters from offset `off` on, read through `ptr[i]`. -/
theorem reads_back_drop_take (s : List Char) (off n : Nat) (hlen : off + n ≤ s.length) :
    reads_back (fun i => char_at s (off + i)) ((s.drop off).take n).reverse := by
  have hl : ((s.drop off).take n).length = n := by simp; omega
  intro i hi
  simp only [List.length_reverse, hl] at hi ⊢
  rw [List.getElem?_reverse (by rw [hl]; omega), hl]
  have h3 : n - 1 - (n - 1 - i) = i := by omega
  rw [h3, List.getElem?_take_of_lt hi, List.getElem?_drop]
  exact char_at_lt s (off + i) (by omega)

/-- Part 1 of `lsp_completion` in terms of the text before the dot: once the
character left of the cursor is a dot, the backward loops find the receiver of
that text, and the answer comes from the struct loop exactly when the receiver
is not empty, names a symbol with a type, and the cleaned type names an entry
of the struct registry (the first such entry). -/
theorem member_completion_eq (h : Helpers) (ctx : ParserContext) (src : String)
    (line col : Int) (hcol : col > 0)
    (hdot : char_at src.toList (seek_line src.toList 0 line + (col - 1).toNat) = '.') :
    member_completion h ctx (some src) line col =
      if receiver (text_before_dot src.toList line col) = [] then none
      else
        ((h.find_symbol_in_all ctx (String.mk (receiver (text_before_dot src.toList line col)))).bind
          (declared_type h)).bind
          (fun ty => (ctx.struct_defs.find? (fun sd => sd.name == clean_type_name ty)).map
            field_items) := by
  unfold member_completion
  dsimp only
  generalize src.toList = s at hdot ⊢
  have hlt : seek_line s 0 line + (col - 1).toNat < s.length := by
    apply char_at_ne_zero_lt
    rw [hdot]
    decide
  have hb := reads_back_drop_take s (seek_line s 0 line) (col - 1).toNat (Nat.le_of_lt hlt)
  have hl : (text_before_dot s line col).reverse.length = (col - 1).toNat := by
    simp only [text_before_dot, List.length_reverse, List.length_take, List.length_drop]
    omega
  change reads_back _ (text_before_dot s line col).reverse at hb
  have e1 := scan_left_eq_dropWhile is_blank _ _ hb
  rw [hl] at e1
  have hsplit1 := List.takeWhile_append_dropWhile is_blank (text_before_dot s line col).reverse
  rw [← hsplit1] at hb
  have hb2 := reads_back_suffix _ _ _ hb
  have e2 := scan_left_eq_dropWhile is_ident_char _ _ hb2
  have hsplit2 := List.takeWhile_append_dropWhile is_ident_char
    ((text_before_dot s line col).reverse.dropWhile is_blank)
  have hb3 := hb2
  rw [← hsplit2] at hb3
  have e3 := copy_chars_eq _ _ _ hb3
  have hlen2 := congrArg List.length hsplit2
  rw [List.length_append] at hlen2
  simp only [hcol, hdot, true_and, if_true, e1, e2]
  unfold receiver
  generalize ((text_before_dot s line col).reverse.dropWhile is_blank) = r2 at *
  generalize r2.takeWhile is_ident_char = A at *
  generalize r2.dropWhile is_ident_char = B at *
  cases A with
  | nil =>
    simp only [List.length_nil, Nat.zero_add] at hlen2
    simp only [List.reverse_nil, if_true, ← hlen2]
    split
    · rw [if_neg (by omega)]
    · rfl
  | cons a as =>
    simp only [List.length_cons] at hlen2 e3
    have hpos : r2.length > 0 := by omega
    have hle : B.length ≤ r2.length - 1 := by omega
    have hlen : r2.length - 1 - B.length + 1 = as.length + 1 := by omega
    simp only [hpos, hle, if_true, hlen, e3]
    rw [if_neg (by simp)]
    cases hsym : (h.find_symbol_in_all ctx (String.mk (a :: as).reverse)).bind (declared_type h) with
    | none => rfl
    | some ty =>
      simp only [Option.bind]
      cases ctx.struct_defs.find? (fun sd => sd.name == clean_type_name ty) <;> rfl

/-- The walk to line `cur + n` ends at the start of line `n` of the text it
walks. -/
theorem seek_line_nth_line (s : List Char) (cur : Int) (n : Nat) (ln : List Char)
    (hln : nth_line s n = some ln) :
    ∃ rest, s.drop (seek_line s cur (cur + n)) = ln ++ rest := by
  induction s generalizing cur n with
  | nil =>
    cases n with
    | zero =>
      simp [nth_line] at hln
      exact ⟨[], by simp [seek_line, hln]⟩
    | succ m => simp [nth_line] at hln
  | cons c cs ih =>
    cases n with
    | zero =>
      simp only [nth_line, Option.some.injEq] at hln
      refine ⟨(c :: cs).dropWhile (fun c => c != '\n'), ?_⟩
      simp only [seek_line, Nat.cast_zero, add_zero, lt_self_iff_false, if_false, List.drop_zero]
      rw [← hln, List.takeWhile_append_dropWhile]
    | succ m =>
      have hlt : cur < cur + ((m + 1 : Nat) : Int) := by omega
      simp only [seek_line, hlt, if_true, List.drop_succ_cons]
      by_cases hc : c = '\n'
      · subst hc
        simp only [nth_line, bne_self_eq_false, Bool.false_eq_true, not_false_eq_true,
          List.dropWhile_cons_of_neg] at hln
        have := ih (cur + 1) m hln
        simp only [if_true]
        have e : cur + 1 + (m : Int) = cur + ((m + 1 : Nat) : Int) := by push_cast; ring
        rw [e] at this
        exact this
      · have hne : (c != '\n') = true := by simpa using hc
        have hln2 : nth_line cs (m + 1) = some ln := by
          have hd : List.dropWhile (fun c => c != '\n') (c :: cs) =
              List.dropWhile (fun c => c != '\n') cs := List.dropWhile_cons_of_pos hne
          simp only [nth_line] at hln ⊢
          rw [hd] at hln
          exact hln
        have := ih cur (m + 1) hln2
        simp only [hc, if_false]
        exact this

/-- For a line the text has, `ptr` points at the characters of that line. -/
theorem drop_seek_line (s : List Char) (line : Int) (ln : List Char) (hline : 0 ≤ line)
    (hln : nth_line s line.toNat = some ln) :
    ∃ rest, s.drop (seek_line s 0 line) = ln ++ rest := by
  have := seek_line_nth_line s 0 line.toNat ln hln
  have e : (0 : Int) + (line.toNat : Int) = line := by omega
  rwa [e] at this

/-- An identifier character is neither a space nor a tab. -/
theorem not_blank_of_ident (c : Char) (hc : is_ident_char c = true) : is_blank c = false := by
  cases hb : is_blank c with
  | false => rfl
  | true =>
    exfalso
    have h2 : c = ' ' ∨ c = '\t' := by simpa [is_blank] using hb
    rcases h2 with h2 | h2 <;> subst h2 <;> exact absurd hc (by decide)

/-- The run taken from `a ++ b` is `a` when `b` starts with a character outside
the run. -/
theorem takeWhile_append_stop (p : Char → Bool) (a b : List Char)
    (ha : ∀ c ∈ a, p c = true) (hb : ∀ c, b.head? = some c → p c = false) :
    (a ++ b).takeWhile p = a := by
  induction a with
  | nil =>
    cases b with
    | nil => rfl
    | cons x xs => simp [List.takeWhile_cons, hb x rfl]
  | cons x xs ih =>
    have hx : p x = true := ha x (List.mem_cons_self _ _)
    simp only [List.cons_append, List.takeWhile_cons, hx, if_true]
    rw [ih (fun c hc => ha c (List.mem_cons_of_mem _ hc))]

/-- The receiver of a text that ends in a whole identifier is that
identifier. -/
theorem receiver_append_ident (before ident : List Char) (hid : ident ≠ [])
    (hidc : ∀ c ∈ ident, is_ident_char c = true)
    (hpre : ∀ c, before.getLast? = some c → is_ident_char c = false) :
    receiver (before ++ ident) = ident := by
  unfold receiver
  rw [List.reverse_append]
  have hne : ident.reverse ≠ [] := by simpa using hid
  obtain ⟨x, xs, hx⟩ := List.exists_cons_of_ne_nil hne
  have hxmem : x ∈ ident := by
    have : x ∈ ident.reverse := by rw [hx]; exact List.mem_cons_self _ _
    simpa using this
  have hxb : is_blank x = false := not_blank_of_ident x (hidc x hxmem)
  have hdrop : (ident.reverse ++ before.reverse).dropWhile is_blank =
      ident.reverse ++ before.reverse := by
    rw [hx, List.cons_append, List.dropWhile_cons_of_neg (by simp [hxb])]
  rw [hdrop, takeWhile_append_stop is_ident_char ident.reverse before.reverse
    (fun c hc => hidc c (by simpa using hc))
    (fun c hc => hpre c (by rw [← List.head?_reverse]; exact hc))]
  simp

/-- For a cursor inside its line, the text before it and the character under
`col - 1` are those of the line. -/
theorem text_before_dot_of_line (s : List Char) (line col : Int) (before rest : List Char)
    (c : Char) (hline : 0 ≤ line) (hln : nth_line s line.toNat = some (before ++ c :: rest))
    (hcol : col = before.length + 1) :
    text_before_dot s line col = before ∧
      char_at s (seek_line s 0 line + (col - 1).toNat) = c := by
  obtain ⟨tail, ht⟩ := drop_seek_line s line _ hline hln
  have hn : (col - 1).toNat = before.length := by omega
  constructor
  · unfold text_before_dot
    rw [ht, hn, List.append_assoc, List.take_left]
  · unfold char_at
    rw [hn]
    have : s[seek_line s 0 line + before.length]? = (s.drop (seek_line s 0 line))[before.length]? := by
      rw [List.getElem?_drop]
    rw [List.getD_eq_getElem?_getD, this, ht, List.append_assoc,
      List.getElem?_append_right (le_refl _)]
    simp

/-- Part 1 of `lsp_completion` with its buffers, in terms of the text before
the dot: once the character left of the cursor is a dot, the call overruns
`var_name` exactly when the receiver has more than 255 characters, and
`clean_name` exactly when the cleaned type name has. -/
theorem member_completion_run_eq (h : Helpers) (ctx : ParserContext) (src : String)
    (line col : Int) (hcol : col > 0)
    (hdot : char_at src.toList (seek_line src.toList 0 line + (col - 1).toNat) = '.') :
    member_completion_run h ctx (some src) line col =
      if receiver (text_before_dot src.toList line col) = [] then MemberStep.fall_through
      else if (receiver (text_before_dot src.toList line col)).length > 255 then MemberStep.fault
      else
        match (h.find_symbol_in_all ctx
            (String.mk (receiver (text_before_dot src.toList line col)))).bind
            (declared_type h) with
        | some ty =>
          if (clean_type_name ty).length > 255 then MemberStep.fault
          else
            match ctx.struct_defs.find? (fun sd => sd.name == clean_type_name ty) with
            | some sd => MemberStep.answer (field_items sd)
            | none => MemberStep.fall_through
        | none => MemberStep.fall_through := by
  unfold member_completion_run
  dsimp only
  generalize src.toList = s at hdot ⊢
  have hlt : seek_line s 0 line + (col - 1).toNat < s.length := by
    apply char_at_ne_zero_lt
    rw [hdot]
    decide
  have hb := reads_back_drop_take s (seek_line s 0 line) (col - 1).toNat (Nat.le_of_lt hlt)
  have hl : (text_before_dot s line col).reverse.length = (col - 1).toNat := by
    simp only [text_before_dot, List.length_reverse, List.length_take, List.length_drop]
    omega
  change reads_back _ (text_before_dot s line col).reverse at hb
  have e1 := scan_left_eq_dropWhile is_blank _ _ hb
  rw [hl] at e1
  have hsplit1 := List.takeWhile_append_dropWhile is_blank (text_before_dot s line col).reverse
  rw [← hsplit1] at hb
  have hb2 := reads_back_suffix _ _ _ hb
  have e2 := scan_left_eq_dropWhile is_ident_char _ _ hb2
  have hsplit2 := List.takeWhile_append_dropWhile is_ident_char
    ((text_before_dot s line col).reverse.dropWhile is_blank)
  have hb3 := hb2
  rw [← hsplit2] at hb3
  have e3 := copy_chars_eq _ _ _ hb3
  have hlen2 := congrArg List.length hsplit2
  rw [List.length_append] at hlen2
  rw [if_pos hcol, if_neg (by omega), if_pos hdot]
  simp only [e1, e2]
  unfold receiver
  generalize ((text_before_dot s line col).reverse.dropWhile is_blank) = r2 at *
  generalize r2.takeWhile is_ident_char = A at *
  generalize r2.dropWhile is_ident_char = B at *
  cases A with
  | nil =>
    simp only [List.length_nil, Nat.zero_add] at hlen2
    simp only [List.reverse_nil, if_true, ← hlen2]
    split
    · rw [if_neg (by omega)]
    · rfl
  | cons a as =>
    simp only [List.length_cons] at hlen2 e3
    have hpos : r2.length > 0 := by omega
    have hle : B.length ≤ r2.length - 1 := by omega
    have hlen : r2.length - 1 - B.length + 1 = as.length + 1 := by omega
    simp only [hpos, hle, if_true, hlen, e3]
    have hne : ¬ ((a :: as).reverse = []) := by simp
    rw [if_neg hne]
    simp only [List.length_reverse, List.length_cons]

/-- The declared type of the specification is the string `type_name` of the
code. -/
theorem declared_type_eq_some (h : Helpers) (sym : Symbol) (ty : String) :
    declared_type h sym = some ty ↔ has_declared_type h sym ty := by
  unfold declared_type has_declared_type
  cases hti : sym.type_info with
  | none => simp
  | some ti => simp

/-- A symbol without a declared type leaves `type_name` null. -/
theorem declared_type_eq_none (h : Helpers) (sym : Symbol) :
    declared_type h sym = none ↔ ∀ ty, ¬ has_declared_type h sym ty := by
  constructor
  · intro hnone ty hty
    rw [(declared_type_eq_some h sym ty).mpr hty] at hnone
    exact absurd hnone (by simp)
  · intro hall
    cases hd : declared_type h sym with
    | none => rfl
    | some ty => exact absurd ((declared_type_eq_some h sym ty).mp hd) (hall ty)

/-- The buffer `clean_name` holds the bare type name. -/
theorem clean_type_name_of_bare (ty : String) (bare : List Char)
    (hbare : is_bare_type_of ty bare) : clean_type_name ty = String.mk bare := by
  obtain ⟨qual, suffix, hty, hqual, hstar, hsuffix⟩ := hbare
  have htake : ∀ l : List Char, l = bare ++ suffix →
      l.takeWhile (fun c => c != '*') = bare := by
    intro l hl
    rw [hl]
    apply takeWhile_append_stop
    · intro c hc
      simpa using hstar c hc
    · intro c hc
      rcases hsuffix with hnil | hhead
      · rw [hnil] at hc
        exact absurd hc (by simp)
      · rw [hhead] at hc
        cases hc
        decide
  unfold clean_type_name
  dsimp only
  congr 1
  rcases hqual with hq | ⟨hq, hno⟩
  · have h7 : ty.toList.take 7 = "struct ".toList := by
      rw [hty, hq, List.append_assoc]
      rfl
    rw [if_pos h7]
    apply htake
    rw [hty, hq, List.append_assoc]
    rfl
  · rw [if_neg hno]
    apply htake
    rw [hty, hq]
    rfl

/-- Inside a line of the text the character at column `k` of the line is
the character `ptr[k]` of the code, and the read is inside the source. -/
theorem char_at_in_line (s : List Char) (line : Int) (ln : List Char) (k : Nat) (c : Char)
    (hline : 0 ≤ line) (hln : nth_line s line.toNat = some ln) (hk : ln[k]? = some c) :
    char_at s (seek_line s 0 line + k) = c ∧ seek_line s 0 line + k < s.length := by
  obtain ⟨tail, ht⟩ := drop_seek_line s line ln hline hln
  have hklt : k < ln.length := by
    by_contra hge
    rw [List.getElem?_eq_none (Nat.le_of_not_lt hge)] at hk
    exact absurd hk (by simp)
  have hget : s[seek_line s 0 line + k]? = some c := by
    rw [← List.getElem?_drop, ht, List.getElem?_append_left hklt]
    exact hk
  have hlt : seek_line s 0 line + k < s.length := by
    by_contra hge
    rw [List.getElem?_eq_none (Nat.le_of_not_lt hge)] at hget
    exact absurd hget (by simp)
  constructor
  · have := char_at_lt s _ hlt
    rw [hget] at this
    exact (Option.some.inj this).symm
  · exact hlt

/-- Member completion inside the buffers. When the cursor line reads
`before ++ ident ++ "."` up to the cursor (so `col` is inside the line and the
character at `col - 1` is the dot), `ident` is the whole identifier that ends
just before the dot and has at most 255 characters, `find_symbol_in_all`
resolves it to a symbol whose declared type is `ty`, and `bare`, which is `ty`
without a leading `struct ` and without everything from the first `*`, has at
most 255 characters and is the name of an entry of the struct registry (`sd`,
the first one of that name, with the field list `fields`), then
`lsp_completion` answers once, with exactly one item per field in field
order: label the field name, kind 5, detail `field <type>`. -/
theorem completion_member_fields (h : Helpers) (g : Option LSPProject) (uri : String)
    (line col : Int) (ctx : ParserContext) (pf : ProjectFile) (src : String)
    (before ident rest : List Char) (sym : Symbol) (ty : String) (bare : List Char)
    (sd : StructDef) (name : String) (fields : List FieldNode)
    (hctx : g.bind (fun proj => proj.ctx) = some ctx)
    (hfile : h.lsp_project_get_file g uri = some pf) (hsrc : pf.source = some src)
    (hline : 0 ≤ line)
    (hln : nth_line src.toList line.toNat = some (before ++ ident ++ '.' :: rest))
    (hcol : col = before.length + ident.length + 1)
    (hid : ident ≠ []) (hidc : ∀ c ∈ ident, is_ident_char c = true)
    (hpre : ∀ c, before.getLast? = some c → is_ident_char c = false)
    (hidlen : ident.length ≤ 255)
    (hsym : h.find_symbol_in_all ctx (String.mk ident) = some sym)
    (hty : has_declared_type h sym ty)
    (hbare : is_bare_type_of ty bare) (hbarelen : bare.length ≤ 255)
    (hsd : ctx.struct_defs.find? (fun sd => sd.name == String.mk bare) = some sd)
    (hnode : sd.node = some (ASTNode.strct name fields))
    (hfits : (completion_text
      (fields.map (fun f => (⟨f.name, 5, "field " ++ f.type⟩ : CompletionItem)))).length <
        1024 * 1024) :
    lsp_completion_run h g uri line col =
      Outcome.wrote [Response.completion
        (fields.map (fun f => (⟨f.name, 5, "field " ++ f.type⟩ : CompletionItem)))] := by
  have hcol2 : col = (before ++ ident).length + 1 := by simp [hcol]
  obtain ⟨htext, hdot⟩ := text_before_dot_of_line src.toList line col (before ++ ident) rest '.'
    hline hln hcol2
  have hpos : col > 0 := by omega
  have hrecv := receiver_append_ident before ident hid hidc hpre
  have hclean := clean_type_name_of_bare ty bare hbare
  have hdecl := (declared_type_eq_some h sym ty).mpr hty
  have hmem := member_completion_run_eq h ctx src line col hpos hdot
  have hitems : field_items sd =
      fields.map (fun f => (⟨f.name, 5, "field " ++ f.type⟩ : CompletionItem)) := by
    simp [field_items, struct_fields, hnode]
  have hcl : ¬ ((String.mk bare).length > 255) := by
    show ¬ (bare.length > 255)
    omega
  rw [htext, hrecv, if_neg hid, if_neg (by omega), hsym] at hmem
  simp only [Option.bind, hdecl, hclean, hsd, if_neg hcl, hitems] at hmem
  simp only [lsp_completion_run, hctx, hfile, hsrc, hmem, completion_answer]
  rw [if_neg (by omega)]

/-- Global completion inside the source and the output buffer. For a tracked
file and a cursor that is at column 0 or inside its line, with a character
other than a dot at `col - 1` of that line (or for a file without cached
source), `lsp_completion` answers once, with one item per entry of the
function registry (kind 3, label the function name) followed by one item per
entry of the struct registry (kind 22, label the struct name), in registry
order, provided that text fits the 1 MiB output buffer. -/
theorem completion_global_list (h : Helpers) (g : Option LSPProject) (uri : String)
    (line col : Int) (ctx : ParserContext) (pf : ProjectFile)
    (hctx : g.bind (fun proj => proj.ctx) = some ctx)
    (hfile : h.lsp_project_get_file g uri = some pf)
    (hnodot : ∀ src, pf.source = some src →
      col ≤ 0 ∨ ∃ ln c, 0 ≤ line ∧ nth_line src.toList line.toNat = some ln ∧
        ln[(col - 1).toNat]? = some c ∧ c ≠ '.')
    (hfits : (completion_text
      (ctx.func_registry.map (fun f => (⟨f.name, 3, "fn " ++ f.name⟩ : CompletionItem)) ++
        ctx.struct_defs.map (fun s => (⟨s.name, 22, "struct " ++ s.name⟩ : CompletionItem)))).length <
        1024 * 1024) :
    lsp_completion_run h g uri line col =
      Outcome.wrote [Response.completion
        (ctx.func_registry.map (fun f => (⟨f.name, 3, "fn " ++ f.name⟩ : CompletionItem)) ++
          ctx.struct_defs.map (fun s => (⟨s.name, 22, "struct " ++ s.name⟩ : CompletionItem)))] := by
  have hmem : member_completion_run h ctx pf.source line col = MemberStep.fall_through := by
    unfold member_completion_run
    cases hs : pf.source with
    | none => rfl
    | some src =>
      dsimp only
      rcases hnodot src hs with hc | ⟨ln, c, hline, hln, hk, hne⟩
      · rw [if_neg (by omega)]
      · by_cases hcol : col > 0
        · obtain ⟨hch, hlt⟩ := char_at_in_line src.toList line ln _ c hline hln hk
          rw [if_pos hcol, if_neg (by omega), if_neg (by rw [hch]; exact hne)]
        · rw [if_neg hcol]
  have hg : global_items ctx =
      ctx.func_registry.map (fun f => (⟨f.name, 3, "fn " ++ f.name⟩ : CompletionItem)) ++
        ctx.struct_defs.map (fun s => (⟨s.name, 22, "struct " ++ s.name⟩ : CompletionItem)) := rfl
  simp only [lsp_completion_run, hctx, hfile, hmem, completion_answer, hg]
  rw [if_neg (by omega)]

/-- C5, amended. Completion fallback: for a tracked file of a project with a
parser context and a cursor inside its line whose preceding character is a
dot (the line reads `before ++ "."` up to the cursor), when a step of member
completion fails (the text before the dot has no receiver identifier, the
receiver names no symbol, the symbol has no declared type, or the bare type
names no registered struct), the receiver and the bare type name have at most
255 characters and the global list fits the 1 MiB output buffer,
`lsp_completion` answers once, with the list of global completion for the
current registries, every function then every struct; that list is empty only
when both registries are empty. -/
theorem completion_fallback_global (h : Helpers) (g : Option LSPProject) (uri : String)
    (line col : Int) (ctx : ParserContext) (pf : ProjectFile) (src : String)
    (before rest : List Char)
    (hctx : g.bind (fun proj => proj.ctx) = some ctx)
    (hfile : h.lsp_project_get_file g uri = some pf) (hsrc : pf.source = some src)
    (hline : 0 ≤ line)
    (hln : nth_line src.toList line.toNat = some (before ++ '.' :: rest))
    (hcol : col = before.length + 1)
    (hlen : (receiver before).length ≤ 255)
    (hfail : receiver before = [] ∨
      h.find_symbol_in_all ctx (String.mk (receiver before)) = none ∨
      (∃ sym, h.find_symbol_in_all ctx (String.mk (receiver before)) = some sym ∧
        ∀ ty, ¬ has_declared_type h sym ty) ∨
      (∃ sym ty bare, h.find_symbol_in_all ctx (String.mk (receiver before)) = some sym ∧
        has_declared_type h sym ty ∧ is_bare_type_of ty bare ∧ bare.length ≤ 255 ∧
        ∀ sd ∈ ctx.struct_defs, sd.name ≠ String.mk bare))
    (hfits : (completion_text
      (ctx.func_registry.map (fun f => (⟨f.name, 3, "fn " ++ f.name⟩ : CompletionItem)) ++
        ctx.struct_defs.map (fun s => (⟨s.name, 22, "struct " ++ s.name⟩ : CompletionItem)))).length <
        1024 * 1024) :
    lsp_completion_run h g uri line col =
        Outcome.wrote [Response.completion
          (ctx.func_registry.map (fun f => (⟨f.name, 3, "fn " ++ f.name⟩ : CompletionItem)) ++
            ctx.struct_defs.map (fun s => (⟨s.name, 22, "struct " ++ s.name⟩ : CompletionItem)))] ∧
      (lsp_completion_run h g uri line col = Outcome.wrote [Response.completion []] ↔
        ctx.func_registry = [] ∧ ctx.struct_defs = []) := by
  obtain ⟨htext, hdot⟩ := text_before_dot_of_line src.toList line col before rest '.'
    hline hln hcol
  have hpos : col > 0 := by omega
  have hmem := member_completion_run_eq h ctx src line col hpos hdot
  rw [htext] at hmem
  have hnone : member_completion_run h ctx (some src) line col = MemberStep.fall_through := by
    rw [hmem]
    rcases hfail with h1 | h2 | ⟨sym, h3, h4⟩ | ⟨sym, ty, bare, h5, h6, h7, h8, h9⟩
    · rw [if_pos h1]
    · split
      · rfl
      · rw [if_neg (by omega), h2]
        rfl
    · split
      · rfl
      · rw [if_neg (by omega), h3]
        simp [Option.bind, (declared_type_eq_none h sym).mpr h4]
    · split
      · rfl
      · have hclean := clean_type_name_of_bare ty bare h7
        have hfind : ctx.struct_defs.find? (fun sd => sd.name == String.mk bare) = none := by
          rw [List.find?_eq_none]
          intro sd hsdm
          simpa using h9 sd hsdm
        have hcl : ¬ ((String.mk bare).length > 255) := by
          show ¬ (bare.length > 255)
          omega
        rw [if_neg (by omega), h5]
        simp only [Option.bind, (declared_type_eq_some h sym ty).mpr h6, hclean, hfind,
          if_neg hcl]
  have hg : global_items ctx =
      ctx.func_registry.map (fun f => (⟨f.name, 3, "fn " ++ f.name⟩ : CompletionItem)) ++
        ctx.struct_defs.map (fun s => (⟨s.name, 22, "struct " ++ s.name⟩ : CompletionItem)) := rfl
  have hres : lsp_completion_run h g uri line col =
      Outcome.wrote [Response.completion
        (ctx.func_registry.map (fun f => (⟨f.name, 3, "fn " ++ f.name⟩ : CompletionItem)) ++
          ctx.struct_defs.map (fun s => (⟨s.name, 22, "struct " ++ s.name⟩ : CompletionItem)))] := by
    simp only [lsp_completion_run, hctx, hfile, hsrc, hnone, completion_answer, hg]
    rw [if_neg (by omega)]
  refine ⟨hres, ?_⟩
  rw [hres]
  simp

set_option maxRecDepth 100000 in
/-- The specification's scenario and a pointer receiver, inside the buffers.
At (2, 30) of the `Point` file, right after `p.` in `fn main`, the answer is
exactly `x` and `y`, both `field int`; at (1, 4) of the file of
`pointer_project`, right after `r.`, where `r` has the type name
`struct Point*`, the answer is the three fields of `Point`. -/
theorem completion_member_fields_witness :
    lsp_completion_run demo_helpers (some point_project) "file:///w/p.zc" 2 30 =
        Outcome.wrote
          [Response.completion [⟨"x", 5, "field int"⟩, ⟨"y", 5, "field int"⟩]] ∧
      lsp_completion_run demo_helpers (some pointer_project) "file:///w/r.zc" 1 4 =
        Outcome.wrote
          [Response.completion
            [⟨"x", 5, "field int"⟩, ⟨"y", 5, "field int"⟩, ⟨"next", 5, "field Point*"⟩]] :=
  ⟨completion_member_fields demo_helpers (some point_project) "file:///w/p.zc" 2 30
      ⟨[⟨"make", [], some ⟨1⟩⟩, ⟨"main", [], none⟩],
        [⟨"Point", some (.strct "Point" [⟨"x", "int"⟩, ⟨"y", "int"⟩])⟩],
        [("p", ⟨some ⟨1⟩, none⟩)]⟩
      ⟨"/w/p.zc", "file:///w/p.zc",
        some "struct Point \x7b x: int; y: int; \x7d\nfn make() -> Point \x7b \x7d\nfn main() \x7b var p = make(); p. \x7d",
        some ⟨[]⟩⟩
      "struct Point \x7b x: int; y: int; \x7d\nfn make() -> Point \x7b \x7d\nfn main() \x7b var p = make(); p. \x7d"
      "fn main() \x7b var p = make(); ".toList ['p'] " \x7d".toList
      ⟨some ⟨1⟩, none⟩ "Point" "Point".toList
      ⟨"Point", some (.strct "Point" [⟨"x", "int"⟩, ⟨"y", "int"⟩])⟩
      "Point" [⟨"x", "int"⟩, ⟨"y", "int"⟩]
      rfl (by decide) rfl (by decide) (by decide) (by decide) (by decide) (by decide)
      (fun c hc => by
        have hlast : "fn main() \x7b var p = make(); ".toList.getLast? = some ' ' := by decide
        rw [hlast] at hc
        cases hc
        decide)
      (by decide) (by decide)
      (Or.inl ⟨⟨1⟩, rfl, by decide⟩)
      ⟨[], [], by decide, Or.inr ⟨rfl, by decide⟩, by decide, Or.inl rfl⟩
      (by decide) (by decide) rfl (by decide),
   completion_member_fields demo_helpers (some pointer_project) "file:///w/r.zc" 1 4
      ⟨[⟨"walk", [], none⟩],
        [⟨"Point", some (.strct "Point" [⟨"x", "int"⟩, ⟨"y", "int"⟩, ⟨"next", "Point*"⟩])⟩],
        [("r", ⟨none, some "struct Point*"⟩)]⟩
      ⟨"/w/r.zc", "file:///w/r.zc", some "fn walk(r: Point*) \x7b\n  r.\n\x7d", some ⟨[]⟩⟩
      "fn walk(r: Point*) \x7b\n  r.\n\x7d"
      "  ".toList ['r'] []
      ⟨none, some "struct Point*"⟩ "struct Point*" "Point".toList
      ⟨"Point", some (.strct "Point" [⟨"x", "int"⟩, ⟨"y", "int"⟩, ⟨"next", "Point*"⟩])⟩
      "Point" [⟨"x", "int"⟩, ⟨"y", "int"⟩, ⟨"next", "Point*"⟩]
      rfl (by decide) rfl (by decide) (by decide) (by decide) (by decide) (by decide)
      (fun c hc => by
        have hlast : "  ".toList.getLast? = some ' ' := by decide
        rw [hlast] at hc
        cases hc
        decide)
      (by decide) (by decide)
      (Or.inr ⟨rfl, rfl⟩)
      ⟨"struct ".toList, ['*'], by decide, Or.inl rfl, by decide, Or.inr rfl⟩
      (by decide) (by decide) rfl (by decide)⟩

set_option maxRecDepth 100000 in
/-- C4, the behaviour of the code at the failing input: the only line of the
file is an identifier of 300 characters followed by a dot, the cursor is
right after the dot, and the identifier resolves to a symbol of the declared
type `Point`, a registered struct with the fields `x` and `y`.  Every
condition of the claim holds, and the answer should be the two fields; the
code copies the 300 characters and a terminator into `var_name[256]` and
overruns it, where `lsp_signature_help` checks `len > 255` before the same
copy.  With the receiver `r` of the type name `struct Point*` the same
request is answered with the three fields of `Point`. -/
theorem member_completion_overruns_long_identifier :
    nth_line (String.mk (long_name ++ ['.'])).toList 0 = some (long_name ++ ['.']) ∧
      long_name.length = 300 ∧
      receiver long_name = long_name ∧
      demo_helpers.find_symbol_in_all
          ⟨[], [⟨"Point", some (.strct "Point" [⟨"x", "int"⟩, ⟨"y", "int"⟩])⟩],
            [(String.mk long_name, ⟨none, some "Point"⟩)]⟩ (String.mk long_name) =
        some ⟨none, some "Point"⟩ ∧
      lsp_completion_run demo_helpers (some long_name_project) "file:///w/l.zc" 0 301 =
        Outcome.fault ∧
      lsp_completion_run demo_helpers (some pointer_project) "file:///w/r.zc" 1 4 =
        Outcome.wrote
          [Response.completion
            [⟨"x", 5, "field int"⟩, ⟨"y", 5, "field int"⟩, ⟨"next", 5, "field Point*"⟩]] := by
  decide

/-- Counterexample to C5 as stated: in a project with empty registries,
completion right after `x.` (line 0 reads `x.`, the receiver `x` names no
symbol) is triggered, falls back to global completion, and the list it
returns is empty. -/
theorem completion_fallback_may_be_empty :
    nth_line "x.".toList 0 = some "x.".toList ∧
      receiver ['x'] = ['x'] ∧
      demo_helpers.find_symbol_in_all ⟨[], [], []⟩ "x" = none ∧
      lsp_completion demo_helpers (some bare_project) "file:///w/x.zc" 0 2 =
        [Response.completion []] ∧
      lsp_completion_run demo_helpers (some bare_project) "file:///w/x.zc" 0 2 =
        Outcome.wrote [Response.completion []] := by
  decide

set_option maxRecDepth 100000 in
/-- Witness of C5 (amended): completion right after `q.` in the second file of
the `Point` project; `q` is not declared, and the answer is the global list. -/
theorem completion_fallback_global_witness :
    nth_line "fn t() \x7b q. \x7d".toList 0 =
        some ("fn t() \x7b q".toList ++ '.' :: " \x7d".toList) ∧
      receiver "fn t() \x7b q".toList = ['q'] ∧
      lsp_completion_run demo_helpers (some point_project) "file:///w/q.zc" 0 11 =
        Outcome.wrote [Response.completion
          ([(⟨"make", [], some ⟨1⟩⟩ : FuncSig), ⟨"main", [], none⟩].map
              (fun f => (⟨f.name, 3, "fn " ++ f.name⟩ : CompletionItem)) ++
            [(⟨"Point", some (.strct "Point" [⟨"x", "int"⟩, ⟨"y", "int"⟩])⟩ : StructDef)].map
              (fun s => (⟨s.name, 22, "struct " ++ s.name⟩ : CompletionItem)))] :=
  ⟨by decide, by decide,
   (completion_fallback_global demo_helpers (some point_project) "file:///w/q.zc" 0 11
      ⟨[⟨"make", [], some ⟨1⟩⟩, ⟨"main", [], none⟩],
        [⟨"Point", some (.strct "Point" [⟨"x", "int"⟩, ⟨"y", "int"⟩])⟩],
        [("p", ⟨some ⟨1⟩, none⟩)]⟩
      ⟨"/w/q.zc", "file:///w/q.zc", some "fn t() \x7b q. \x7d", some ⟨[]⟩⟩
      "fn t() \x7b q. \x7d" "fn t() \x7b q".toList " \x7d".toList
      rfl (by decide) rfl (by decide) (by decide) (by decide) (by decide)
      (Or.inr (Or.inl (by decide))) (by decide)).1⟩

set_option maxRecDepth 100000 in
/-- Global completion inside the text: at (2, 29) of the `Point` file the
character before the cursor is `p`, and the answer lists `make`, `main`, then
`Point`; with empty registries the answer at (0, 1) of `x.` is the empty
list. -/
theorem completion_global_list_witness :
    lsp_completion_run demo_helpers (some point_project) "file:///w/p.zc" 2 29 =
        Outcome.wrote [Response.completion
          [⟨"make", 3, "fn make"⟩, ⟨"main", 3, "fn main"⟩, ⟨"Point", 22, "struct Point"⟩]] ∧
      lsp_completion_run demo_helpers (some bare_project) "file:///w/x.zc" 0 1 =
        Outcome.wrote [Response.completion []] :=
  ⟨completion_global_list demo_helpers (some point_project) "file:///w/p.zc" 2 29
      ⟨[⟨"make", [], some ⟨1⟩⟩, ⟨"main", [], none⟩],
        [⟨"Point", some (.strct "Point" [⟨"x", "int"⟩, ⟨"y", "int"⟩])⟩],
        [("p", ⟨some ⟨1⟩, none⟩)]⟩
      ⟨"/w/p.zc", "file:///w/p.zc",
        some "struct Point \x7b x: int; y: int; \x7d\nfn make() -> Point \x7b \x7d\nfn main() \x7b var p = make(); p. \x7d",
        some ⟨[]⟩⟩
      rfl (by decide)
      (fun src hsrc => by
        cases hsrc
        exact Or.inr ⟨"fn main() \x7b var p = make(); p. \x7d".toList, 'p',
          by decide, by decide, by decide, by decide⟩)
      (by decide),
   completion_global_list demo_helpers (some bare_project) "file:///w/x.zc" 0 1
      ⟨[], [], []⟩ ⟨"/w/x.zc", "file:///w/x.zc", some "x.", some ⟨[]⟩⟩
      rfl (by decide)
      (fun src hsrc => by
        cases hsrc
        exact Or.inr ⟨"x.".toList, 'x', by decide, by decide, by decide, by decide⟩)
      (by decide)⟩

/-- C6, the behaviour of the code at the failing input: the tracked file
reads `mk`, two characters, and the cursor is at (0, 1000000).  No character
of the text is a dot, so the claim asks for the global list, which the code
gives at (0, 2); at column 1000000 the code reads `ptr[col - 1]`, 999999
bytes into a buffer of 3, before anything is written, where
`lsp_signature_help` first checks the offset against the end of the
source. -/
theorem global_completion_reads_past_source :
    (demo_helpers.lsp_project_get_file (some tiny_project) "file:///w/mk.zc").bind
        (fun pf => pf.source) = some "mk" ∧
      (∀ c ∈ "mk".toList, c ≠ '.') ∧
      lsp_completion_run demo_helpers (some tiny_project) "file:///w/mk.zc" 0 2 =
        Outcome.wrote [Response.completion [⟨"mk", 3, "fn mk"⟩]] ∧
      lsp_completion_run demo_helpers (some tiny_project) "file:///w/mk.zc" 0 1000000 =
        Outcome.fault := by
  decide


/-! ### Diagnostics -/

/-- The callback appends the diagnostic at the clamped 0-based position. -/
theorem lsp_on_error_eq (list : List Diagnostic) (t : Token) (msg : String) :
    lsp_on_error list t msg =
      list ++ [(⟨max (t.line - 1) 0, max (t.col - 1) 0, msg⟩ : Diagnostic)] := by
  have hl : (if t.line > 0 then t.line - 1 else 0) = max (t.line - 1) 0 := by
    split <;> omega
  have hc : (if t.col > 0 then t.col - 1 else 0) = max (t.col - 1) 0 := by
    split <;> omega
  simp only [lsp_on_error, hl, hc]

/-- The diagnostics list after the callback ran on every reported error: the
list before, then one diagnostic per error in report order. -/
theorem foldl_on_error (calls : List (Token × String)) (acc : List Diagnostic) :
    calls.foldl (fun list c => lsp_on_error list c.1 c.2) acc =
      acc ++ calls.map (fun c => (⟨max (c.1.line - 1) 0, max (c.1.col - 1) 0, c.2⟩ : Diagnostic)) := by
  induction calls generalizing acc with
  | nil => simp
  | cons c cs ih =>
    rw [List.foldl_cons, ih, lsp_on_error_eq, List.map_cons, List.append_assoc]
    rfl

/-- The text of an array is at least as long as its entries together. -/
theorem joined_length_ge (k : Nat) (l : List String) (hk : ∀ x ∈ l, k ≤ x.length) :
    k * l.length ≤ (joined l).length := by
  induction l with
  | nil => simp [joined]
  | cons x rest ih =>
    have hx : k ≤ x.length := hk x (List.mem_cons_self _ _)
    have ih2 := ih (fun y hy => hk y (List.mem_cons_of_mem _ hy))
    cases rest with
    | nil =>
      simp only [joined, List.length_cons, List.length_nil]
      omega
    | cons y rest2 =>
      simp only [joined, String.length_append, List.length_cons] at ih2 ⊢
      have hc : ",".length = 1 := by decide
      rw [hc]
      have e : k * (rest2.length + 1 + 1) = k * (rest2.length + 1) + k := by ring
      omega

/-- The text of one diagnostic holds 97 characters besides its four numbers
and its message. -/
theorem diagnostic_text_length_ge (d : Diagnostic) : 97 ≤ (diagnostic_text d).length := by
  have h1 : "\x7b\"range\":\x7b\"start\":\x7b\"line\":".length = 26 := by decide
  have h2 : ",\"character\":".length = 13 := by decide
  have h3 : "\x7d,\"end\":\x7b\"line\":".length = 16 := by decide
  have h4 : "\x7d\x7d,\"severity\":1,\"message\":\"".length = 27 := by decide
  have h5 : "\"\x7d".length = 2 := by decide
  simp only [diagnostic_text, String.length_append, h1, h2, h3, h4, h5]
  omega

/-- The notification holds at least 97 characters per diagnostic. -/
theorem notification_text_length_ge (uri : String) (diagnostics : List Diagnostic) :
    97 * diagnostics.length ≤ (notification_text uri diagnostics).length := by
  have hj := joined_length_ge 97 (diagnostics.map diagnostic_text) (by
    intro x hx
    simp only [List.mem_map] at hx
    obtain ⟨d, -, rfl⟩ := hx
    exact diagnostic_text_length_ge d)
  rw [List.length_map] at hj
  simp only [notification_text, String.length_append]
  omega

/-- Diagnostics inside the buffer. When the parser context is there before
and after the parse and the notification fits its buffer of 128 KiB,
`lsp_check_file` writes exactly one message, the publishDiagnostics
notification of the URI, whose array holds one entry per error the parser
reported during this parse, in report order, each with severity 1 and the
message of the error; the array is empty exactly when the parser reported no
error. -/
theorem check_file_publishes_this_parse (ps : ParserSide) (g : Option LSPProject)
    (uri src : String) (ctx0 ctx1 : ParserContext)
    (hbefore : (ensure_project ps g).ctx = some ctx0)
    (hafter : (ps.lsp_project_update_file (ensure_project ps g) uri src).1.ctx = some ctx1)
    (hfits : (notification_text uri
      ((reported_errors ps g uri src).map (fun c =>
        (⟨max (c.1.line - 1) 0, max (c.1.col - 1) 0, c.2⟩ : Diagnostic)))).length <
          128 * 1024) :
    lsp_check_file_run ps g uri src =
        Outcome.wrote [Response.publishDiagnostics uri
          ((reported_errors ps g uri src).map (fun c =>
            (⟨max (c.1.line - 1) 0, max (c.1.col - 1) 0,
              max (c.1.line - 1) 0, max (c.1.col - 1) 0 + 1, 1, c.2⟩ : DiagnosticEntry)))] ∧
      (lsp_check_file_run ps g uri src = Outcome.wrote [Response.publishDiagnostics uri []] ↔
        reported_errors ps g uri src = []) := by
  have key : lsp_check_file_run ps g uri src =
      Outcome.wrote [Response.publishDiagnostics uri
        ((reported_errors ps g uri src).map (fun c =>
          (⟨max (c.1.line - 1) 0, max (c.1.col - 1) 0,
            max (c.1.line - 1) 0, max (c.1.col - 1) 0 + 1, 1, c.2⟩ : DiagnosticEntry)))] := by
    unfold reported_errors at hfits ⊢
    unfold lsp_check_file_run
    simp only [hbefore, hafter, foldl_on_error, List.nil_append]
    rw [if_neg (by omega)]
    simp [diagnostic_entry, Function.comp_def]
  refine ⟨key, ?_⟩
  rw [key]
  simp

set_option maxRecDepth 100000 in
/-- An edit that introduces an error yields one diagnostic of severity 1 for
the URI, and the next edit, which removes it, yields the empty array for the
same URI. -/
theorem check_file_publishes_this_parse_witness :
    lsp_check_file_run demo_parse_side none "file:///w/a.zc" "fn f(?" =
        Outcome.wrote
          [Response.publishDiagnostics "file:///w/a.zc" [⟨0, 5, 0, 6, 1, "unexpected token"⟩]] ∧
      lsp_check_file_run demo_parse_side
          (lsp_check_file demo_parse_side none "file:///w/a.zc" "fn f(?").1
          "file:///w/a.zc" "fn f()" =
        Outcome.wrote [Response.publishDiagnostics "file:///w/a.zc" []] :=
  ⟨(check_file_publishes_this_parse demo_parse_side none "file:///w/a.zc" "fn f(?"
      ⟨[], [], []⟩ ⟨[], [], []⟩ rfl rfl (by decide)).1,
   (check_file_publishes_this_parse demo_parse_side
      (lsp_check_file demo_parse_side none "file:///w/a.zc" "fn f(?").1
      "file:///w/a.zc" "fn f()" ⟨[], [], []⟩ ⟨[], [], []⟩ rfl rfl (by decide)).2.2 (by decide)⟩

/-- With 1352 reported errors or more the notification does not fit its
buffer: the call overruns it. -/
theorem check_file_run_overruns (ps : ParserSide) (g : Option LSPProject)
    (uri src : String) (ctx0 ctx1 : ParserContext)
    (hbefore : (ensure_project ps g).ctx = some ctx0)
    (hafter : (ps.lsp_project_update_file (ensure_project ps g) uri src).1.ctx = some ctx1)
    (hmany : 1352 ≤ (reported_errors ps g uri src).length) :
    lsp_check_file_run ps g uri src = Outcome.fault := by
  unfold reported_errors at hmany
  unfold lsp_check_file_run
  simp only [hbefore, hafter, foldl_on_error, List.nil_append]
  have hlen := notification_text_length_ge uri
    ((ps.lsp_project_update_file (ensure_project ps g) uri src).2.map (fun c =>
      (⟨max (c.1.line - 1) 0, max (c.1.col - 1) 0, c.2⟩ : Diagnostic)))
  rw [List.length_map] at hlen
  rw [if_pos (by omega)]

set_option maxRecDepth 100000 in
/-- C7, the behaviour of the code at the failing input: a text for which the
parser reports 1500 errors.  The notification needs at least 97 characters
per error, 145500 in all, and `lsp_check_file` writes them with `sprintf`
into its buffer of 131072 bytes without a length check: the call overruns
the buffer instead of sending the notification with 1500 diagnostics.  For
a text with two errors the notification carries the two diagnostics. -/
theorem check_file_overruns_on_many_errors :
    lsp_check_file_run flood_parse_side (some tiny_project) "file:///w/mk.zc" "??" =
        Outcome.wrote [Response.publishDiagnostics "file:///w/mk.zc"
          [⟨0, 0, 0, 1, 1, "unexpected token"⟩, ⟨0, 0, 0, 1, 1, "unexpected token"⟩]] ∧
      (reported_errors flood_parse_side (some tiny_project) "file:///w/mk.zc"
        (String.mk (List.replicate 1500 '?'))).length = 1500 ∧
      lsp_check_file_run flood_parse_side (some tiny_project) "file:///w/mk.zc"
        (String.mk (List.replicate 1500 '?')) = Outcome.fault := by
  refine ⟨by decide, ?_⟩
  have hlen : (reported_errors flood_parse_side (some tiny_project) "file:///w/mk.zc"
      (String.mk (List.replicate 1500 '?'))).length = 1500 := by
    show ((List.replicate 1500 '?').map
      (fun _ => ((⟨1, 1⟩ : Token), "unexpected token"))).length = 1500
    rw [List.length_map, List.length_replicate]
  exact ⟨hlen, check_file_run_overruns flood_parse_side (some tiny_project) "file:///w/mk.zc"
    (String.mk (List.replicate 1500 '?')) ⟨[⟨"mk", [], none⟩], [], []⟩
    ⟨[⟨"mk", [], none⟩], [], []⟩ rfl rfl (by rw [hlen]; omega)⟩

/-- C8. The diagnostic `lsp_on_error` appends for a token at the parser
position `(line, col)` has `line = max (line - 1) 0` and
`col = max (col - 1) 0`: neither is negative, and each is the parser value
minus one when that value is at least 1. -/
theorem on_error_position_clamped (list : List Diagnostic) (t : Token) (msg : String) :
    ∃ d : Diagnostic, lsp_on_error list t msg = list ++ [d] ∧ d.message = msg ∧
      d.line = max (t.line - 1) 0 ∧ d.col = max (t.col - 1) 0 ∧
      0 ≤ d.line ∧ 0 ≤ d.col ∧
      (1 ≤ t.line → d.line = t.line - 1) ∧ (1 ≤ t.col → d.col = t.col - 1) := by
  refine ⟨⟨if t.line > 0 then t.line - 1 else 0, if t.col > 0 then t.col - 1 else 0, msg⟩,
    rfl, rfl, ?_, ?_, ?_, ?_, ?_, ?_⟩
  · show (if t.line > 0 then t.line - 1 else 0) = max (t.line - 1) 0
    split <;> omega
  · show (if t.col > 0 then t.col - 1 else 0) = max (t.col - 1) 0
    split <;> omega
  · show 0 ≤ (if t.line > 0 then t.line - 1 else 0)
    split <;> omega
  · show 0 ≤ (if t.col > 0 then t.col - 1 else 0)
    split <;> omega
  · intro hl
    show (if t.line > 0 then t.line - 1 else 0) = t.line - 1
    split <;> omega
  · intro hc
    show (if t.col > 0 then t.col - 1 else 0) = t.col - 1
    split <;> omega

/-- Witness of C8: a token at (3, 0) after an earlier diagnostic. -/
theorem on_error_position_clamped_witness :
    lsp_on_error [⟨0, 0, "first"⟩] ⟨3, 0⟩ "second" = [⟨0, 0, "first"⟩, ⟨2, 0, "second"⟩] ∧
      ∃ d : Diagnostic, lsp_on_error [⟨0, 0, "first"⟩] ⟨3, 0⟩ "second" = [⟨0, 0, "first"⟩] ++ [d] ∧
        d.message = "second" ∧
        d.line = max ((⟨3, 0⟩ : Token).line - 1) 0 ∧ d.col = max ((⟨3, 0⟩ : Token).col - 1) 0 ∧
        0 ≤ d.line ∧ 0 ≤ d.col ∧
        (1 ≤ (⟨3, 0⟩ : Token).line → d.line = (⟨3, 0⟩ : Token).line - 1) ∧
        (1 ≤ (⟨3, 0⟩ : Token).col → d.col = (⟨3, 0⟩ : Token).col - 1) :=
  ⟨by decide, on_error_position_clamped [⟨0, 0, "first"⟩] ⟨3, 0⟩ "second"⟩

/-! ### Signature help -/

/-- C10, the behaviour of the code at the failing input: with the cursor at
(0, 11) of `add(now(), 1); add(1, `, right after `add(now(), `, the scan to
the left meets the `)` of `now()` before any `(`, and `lsp_signature_help`
writes nothing at all, neither the null result nor any other response. -/
theorem signature_help_silent_after_close_paren :
    "add(now(), 1); add(1, ".toList.take 11 = "add(now(".toList ++ [')'] ++ ", ".toList ∧
      lsp_signature_help demo_helpers (some call_project) "file:///w/b.zc" 0 11 = [] ∧
      lsp_signature_help demo_helpers (some call_project) "file:///w/b.zc" 0 11 ≠
        [Response.null] := by
  decide

/-! ### Files that were never indexed -/

/-- C11, the behaviour of the code at the failing input: for a URI the project
does not track, `lsp_document_symbol` answers with the null result, while
`lsp_goto_definition`, `lsp_hover`, `lsp_completion`, `lsp_references` and
`lsp_signature_help` return without writing any response. -/
theorem queries_on_untracked_file :
    demo_helpers.lsp_project_get_file (some shadow_project) "file:///w/never.zc" = none ∧
      lsp_document_symbol demo_helpers (some shadow_project) "file:///w/never.zc" =
        [Response.null] ∧
      lsp_goto_definition demo_helpers (some shadow_project) "file:///w/never.zc" 0 0 = [] ∧
      lsp_hover demo_helpers (some shadow_project) "file:///w/never.zc" 0 0 = [] ∧
      lsp_completion demo_helpers (some shadow_project) "file:///w/never.zc" 0 0 = [] ∧
      lsp_references demo_helpers spec_find_references (some shadow_project)
        "file:///w/never.zc" 0 0 = [] ∧
      lsp_signature_help demo_helpers (some shadow_project) "file:///w/never.zc" 0 0 = [] := by
  decide

/-! ### Kind codes -/

/-- Counterexample to C13 as stated: in the document-symbol list of the
shadowing file the items of the functions `f`, `g`, `k`, `m` carry kind 12,
not 3. -/
theorem document_symbol_function_kind_is_12 :
    lsp_document_symbol demo_helpers (some shadow_project) "file:///w/a.zc" =
      [Response.documentSymbols
        [⟨"f", 12, "file:///w/a.zc", 0, 3, 0, 4⟩,
         ⟨"g", 12, "file:///w/a.zc", 1, 3, 1, 4⟩,
         ⟨"f", 13, "file:///w/a.zc", 1, 13, 1, 14⟩,
         ⟨"k", 12, "file:///w/a.zc", 2, 3, 2, 4⟩,
         ⟨"m", 12, "file:///w/a.zc", 3, 3, 3, 4⟩,
         ⟨"n", 13, "file:///w/a.zc", 3, 13, 3, 14⟩]] := by
  decide

/-- The entry of a definition range, by the type of its node. -/
theorem symbol_entry_eq_some (uri : String) (r : LSPRange) (sym : SymbolInformation) :
    symbol_entry uri r = some sym ↔
      r.type = RangeType.RANGE_DEFINITION ∧
        sym = ⟨sym.name, sym.kind, uri, r.start_line, r.start_col, r.end_line, r.end_col⟩ ∧
        ((r.node = ASTNode.func sym.name ∧ sym.kind = 12) ∨
          ((∃ fields, r.node = ASTNode.strct sym.name fields) ∧ sym.kind = 23) ∨
          (r.node = ASTNode.var_decl sym.name ∧ sym.kind = 13) ∨
          (r.node = ASTNode.const sym.name ∧ sym.kind = 14)) := by
  unfold symbol_entry
  by_cases hty : r.type = RangeType.RANGE_DEFINITION
  · simp only [hty, if_true, true_and]
    cases hnode : r.node with
    | func n =>
      simp only [symbol_name_kind, Option.map_some', Option.some.injEq]
      constructor
      · rintro rfl
        simp
      · rintro ⟨heq, hk⟩
        rcases hk with ⟨h1, h2⟩ | ⟨⟨fs, h1⟩, -⟩ | ⟨h1, -⟩ | ⟨h1, -⟩
        · rw [heq]
          simp only [ASTNode.func.injEq] at h1
          simp [h1, h2]
        all_goals exact absurd h1 (by simp)
    | strct n fs0 =>
      simp only [symbol_name_kind, Option.map_some', Option.some.injEq]
      constructor
      · rintro rfl
        simp
      · rintro ⟨heq, hk⟩
        rcases hk with ⟨h1, -⟩ | ⟨⟨fs, h1⟩, h2⟩ | ⟨h1, -⟩ | ⟨h1, -⟩
        · exact absurd h1 (by simp)
        · rw [heq]
          simp only [ASTNode.strct.injEq] at h1
          simp [h1.1, h2]
        all_goals exact absurd h1 (by simp)
    | var_decl n =>
      simp only [symbol_name_kind, Option.map_some', Option.some.injEq]
      constructor
      · rintro rfl
        simp
      · rintro ⟨heq, hk⟩
        rcases hk with ⟨h1, -⟩ | ⟨⟨fs, h1⟩, -⟩ | ⟨h1, h2⟩ | ⟨h1, -⟩
        · exact absurd h1 (by simp)
        · exact absurd h1 (by simp)
        · rw [heq]
          simp only [ASTNode.var_decl.injEq] at h1
          simp [h1, h2]
        · exact absurd h1 (by simp)
    | const n =>
      simp only [symbol_name_kind, Option.map_some', Option.some.injEq]
      constructor
      · rintro rfl
        simp
      · rintro ⟨heq, hk⟩
        rcases hk with ⟨h1, -⟩ | ⟨⟨fs, h1⟩, -⟩ | ⟨h1, -⟩ | ⟨h1, h2⟩
        · exact absurd h1 (by simp)
        · exact absurd h1 (by simp)
        · exact absurd h1 (by simp)
        · rw [heq]
          simp only [ASTNode.const.injEq] at h1
          simp [h1, h2]
    | expr_var n => simp [symbol_name_kind]
    | expr_call c => simp [symbol_name_kind]
    | other => simp [symbol_name_kind]
  · simp [hty]

/-- When part 1 of `lsp_completion` answers, its items are the field items of
an entry of the struct registry. -/
theorem member_completion_some (h : Helpers) (ctx : ParserContext) (source : Option String)
    (line col : Int) (items : List CompletionItem)
    (hm : member_completion h ctx source line col = some items) :
    ∃ sd ∈ ctx.struct_defs, items = field_items sd := by
  unfold member_completion at hm
  split at hm
  · exact absurd hm (by simp)
  · dsimp only at hm
    split at hm
    · split at hm
      · split at hm
        · split at hm
          · split at hm
            · rename_i sd hfind
              simp only [Option.some.injEq] at hm
              exact ⟨sd, List.mem_of_find?_eq_some hfind, hm.symm⟩
            · exact absurd hm (by simp)
          · exact absurd hm (by simp)
        · exact absurd hm (by simp)
      · exact absurd hm (by simp)
    · exact absurd hm (by simp)

/-- C13, amended. Every kind code the server emits: a completion list is
either the global list, whose function items carry kind 3 and whose struct
items carry kind 22, or the fields of a registered struct, each with kind 5;
a document-symbol list has exactly one item per definition range of a
function (kind 12), a struct (kind 23), a variable (kind 13) or a constant
(kind 14); every diagnostic carries severity 1. -/
theorem kind_codes (h : Helpers) (ps : ParserSide) (g : Option LSPProject)
    (uri src : String) (line col : Int) :
    (lsp_completion h g uri line col = [] ∨
      ∃ ctx items, g.bind (fun proj => proj.ctx) = some ctx ∧
        lsp_completion h g uri line col = [Response.completion items] ∧
        (items =
            ctx.func_registry.map (fun f => (⟨f.name, 3, "fn " ++ f.name⟩ : CompletionItem)) ++
              ctx.struct_defs.map (fun s => (⟨s.name, 22, "struct " ++ s.name⟩ : CompletionItem)) ∨
          ∃ sd ∈ ctx.struct_defs, items =
            (struct_fields sd).map (fun f => (⟨f.name, 5, "field " ++ f.type⟩ : CompletionItem)))) ∧
    (lsp_document_symbol h g uri = [Response.null] ∨
      ∃ idx symbols, (h.lsp_project_get_file g uri).bind (fun pf => pf.index) = some idx ∧
        lsp_document_symbol h g uri = [Response.documentSymbols symbols] ∧
        ∀ sym, sym ∈ symbols ↔
          ∃ r ∈ idx.head, r.type = RangeType.RANGE_DEFINITION ∧
            sym = ⟨sym.name, sym.kind, uri, r.start_line, r.start_col, r.end_line, r.end_col⟩ ∧
            ((r.node = ASTNode.func sym.name ∧ sym.kind = 12) ∨
              ((∃ fields, r.node = ASTNode.strct sym.name fields) ∧ sym.kind = 23) ∨
              (r.node = ASTNode.var_decl sym.name ∧ sym.kind = 13) ∨
              (r.node = ASTNode.const sym.name ∧ sym.kind = 14))) ∧
    (∃ diagnostics, (lsp_check_file ps g uri src).2 =
        [Response.publishDiagnostics uri diagnostics] ∧
      ∀ d ∈ diagnostics, d.severity = 1) := by
  refine ⟨?_, ?_, ?_⟩
  · unfold lsp_completion
    cases hctx : g.bind (fun proj => proj.ctx) with
    | none => exact Or.inl rfl
    | some ctx =>
      cases hfile : h.lsp_project_get_file g uri with
      | none => exact Or.inl rfl
      | some pf =>
        right
        cases hm : member_completion h ctx pf.source line col with
        | none => exact ⟨ctx, global_items ctx, rfl, by simp only [hm], Or.inl rfl⟩
        | some items =>
          obtain ⟨sd, hsd, hitems⟩ := member_completion_some h ctx pf.source line col items hm
          exact ⟨ctx, items, rfl, by simp only [hm], Or.inr ⟨sd, hsd, hitems⟩⟩
  · unfold lsp_document_symbol
    cases hidx : (h.lsp_project_get_file g uri).bind (fun pf => pf.index) with
    | none => exact Or.inl rfl
    | some idx =>
      right
      refine ⟨idx, _, rfl, rfl, ?_⟩
      intro sym
      rw [List.mem_filterMap]
      constructor
      · rintro ⟨r, hr, he⟩
        exact ⟨r, hr, (symbol_entry_eq_some uri r sym).mp he⟩
      · rintro ⟨r, hr, he⟩
        exact ⟨r, hr, (symbol_entry_eq_some uri r sym).mpr he⟩
  · refine ⟨_, rfl, ?_⟩
    intro d hd
    simp only [List.mem_map] at hd
    obtain ⟨x, -, rfl⟩ := hd
    rfl

/-- Witness of C13 (amended): the completion list at (2, 29) of the `Point`
file, the document symbols of the shadowing file, and the diagnostics of a
text with one error. -/
theorem kind_codes_witness :
    lsp_completion demo_helpers (some point_project) "file:///w/p.zc" 2 29 =
        [Response.completion
          [⟨"make", 3, "fn make"⟩, ⟨"main", 3, "fn main"⟩, ⟨"Point", 22, "struct Point"⟩]] ∧
      (lsp_check_file demo_parse_side (some point_project) "file:///w/p.zc" "fn f(?").2 =
        [Response.publishDiagnostics "file:///w/p.zc" [⟨0, 5, 0, 6, 1, "unexpected token"⟩]] ∧
      ∃ diagnostics,
        (lsp_check_file demo_parse_side (some point_project) "file:///w/p.zc" "fn f(?").2 =
          [Response.publishDiagnostics "file:///w/p.zc" diagnostics] ∧
        ∀ d ∈ diagnostics, d.severity = 1 :=
  ⟨by decide, by decide,
   (kind_codes demo_helpers demo_parse_side (some point_project) "file:///w/p.zc" "fn f(?" 2 29).2.2⟩

/-! ### Hover -/

/-- C14, the behaviour of the code at the failing input: the reference `x` at
(1, 0) records the definition site (0, 4), where this file declares `var y`.
The names differ, so go-to-definition does not resolve it locally (`is_local`
stays 0 and the answer is null), but `lsp_hover` shows the hover text of
`var y`. -/
theorem hover_ignores_name_congruence :
    spec_find_at stale_index 1 0 =
        some ⟨1, 0, 1, 1, .RANGE_REFERENCE, 0, 4, none, .expr_var "x"⟩ ∧
      spec_find_at stale_index 0 4 =
        some ⟨0, 4, 0, 5, .RANGE_DEFINITION, -1, -1, some "var y: int", .var_decl "y"⟩ ∧
      is_local demo_helpers stale_index
        ⟨1, 0, 1, 1, .RANGE_REFERENCE, 0, 4, none, .expr_var "x"⟩ = false ∧
      lsp_goto_definition demo_helpers (some stale_project) "file:///w/s.zc" 1 0 =
        [Response.null] ∧
      lsp_hover demo_helpers (some stale_project) "file:///w/s.zc" 1 0 =
        [Response.hover "```c\nvar y: int\n```"] := by
  decide

/-! ### The backward scan of signature help -/

/-- Characters that are no parenthesis are skipped by the scan. -/
theorem scan_back_skip (ctx : ParserContext) (s : List Char) (k n : Nat) (hkn : k ≤ n)
    (hskip : ∀ i, k ≤ i → i < n → char_at s i ≠ '(' ∧ char_at s i ≠ ')') :
    scan_back ctx s n = scan_back ctx s k := by
  induction n with
  | zero =>
    have : k = 0 := by omega
    rw [this]
  | succ m ih =>
    by_cases hk : k = m + 1
    · rw [hk]
    · have hkm : k ≤ m := by omega
      have hm := hskip m hkm (by omega)
      rw [scan_back, if_neg hm.2, if_neg hm.1]
      exact ih hkm (fun i h1 h2 => hskip i h1 (by omega))

/-- The character `char_at s i` for `i < n` is a character of `s.take n` or
the terminator. -/
theorem char_at_take (s : List Char) (n i : Nat) (hi : i < n) :
    (s.take n)[i]? = some (char_at s i) ∨ (s.take n).length ≤ i ∧ char_at s i = Char.ofNat 0 := by
  by_cases hlen : i < s.length
  · left
    rw [List.getElem?_take_of_lt hi]
    exact char_at_lt s i hlen
  · right
    constructor
    · rw [List.length_take]
      omega
    · simp [char_at, List.getElem?_eq_none (Nat.le_of_not_lt hlen)]

/-- The scan behind a decomposition of the text left of the cursor: when no
parenthesis follows the character `c`, the scan reaches `c`. -/
theorem scan_back_reaches (ctx : ParserContext) (s : List Char) (n : Nat)
    (pre mid : List Char) (c : Char) (htake : s.take n = pre ++ c :: mid)
    (hmid : ∀ x ∈ mid, x ≠ '(' ∧ x ≠ ')') :
    scan_back ctx s n = scan_back ctx s (pre.length + 1) ∧ char_at s pre.length = c := by
  have hlen : (s.take n).length = pre.length + 1 + mid.length := by
    rw [htake]
    simp
    omega
  have hn : pre.length + 1 + mid.length ≤ n := by
    rw [← hlen, List.length_take]
    omega
  constructor
  · apply scan_back_skip ctx s (pre.length + 1) n (by omega)
    intro i h1 h2
    rcases char_at_take s n i h2 with hget | ⟨-, hz⟩
    · rw [htake] at hget
      have hi : i < pre.length + 1 + mid.length := by
        by_contra hge
        rw [List.getElem?_eq_none (by simp; omega)] at hget
        exact absurd hget (by simp)
      rw [List.getElem?_append_right (by omega)] at hget
      have hidx : i - pre.length = (i - pre.length - 1) + 1 := by omega
      rw [hidx, List.getElem?_cons_succ] at hget
      have hmem : char_at s i ∈ mid := List.getElem?_mem hget
      exact hmid _ hmem
    · rw [hz]
      decide
  · rcases char_at_take s n pre.length (by omega) with hget | ⟨hle, -⟩
    · rw [htake, List.getElem?_append_right (le_refl _)] at hget
      simp at hget
      exact hget.symm
    · omega

/-- Counterexample to C15 as stated: with the cursor at (1, 3), the end of
line 1 of `add(1,` / `  2`, line 1 holds no parenthesis, and the scan accepts
the `(` of line 0; with the cursor at (1, 3) of `add(1, 2)` / `add` the `)` of
line 0 makes the function return without an answer. -/
theorem signature_scan_crosses_lines :
    nth_line "add(1,\n  2".toList 1 = some "  2".toList ∧
      lsp_signature_help demo_helpers (some multiline_project) "file:///w/c.zc" 1 3 =
        [Response.signatureHelp "fn add(int, int) -> int"] ∧
      nth_line "add(1, 2)\nadd".toList 1 = some "add".toList ∧
      lsp_signature_help demo_helpers (some multiline_project) "file:///w/d.zc" 1 3 = [] := by
  decide

/-- The backward scan over the text left of the offset `n`: the parenthesis
that decides is the last one in that text. -/
theorem scan_back_last_paren (ctx : ParserContext) (s : List Char) (n : Nat) :
    ((∀ x ∈ s.take n, x ≠ '(' ∧ x ≠ ')') → scan_back ctx s n = SigScan.no_match) ∧
    (∀ pre mid, s.take n = pre ++ ')' :: mid → (∀ x ∈ mid, x ≠ '(' ∧ x ≠ ')') →
      scan_back ctx s n = SigScan.bare_return) ∧
    (∀ pre mid, s.take n = pre ++ '(' :: mid → (∀ x ∈ mid, x ≠ '(' ∧ x ≠ ')') →
      scan_back ctx s n = after_paren ctx s pre.length) := by
  refine ⟨?_, ?_, ?_⟩
  · intro hnone
    rw [scan_back_skip ctx s 0 n (Nat.zero_le _)]
    · rfl
    · intro i _ h2
      rcases char_at_take s n i h2 with hget | ⟨-, hz⟩
      · exact hnone _ (List.getElem?_mem hget)
      · rw [hz]
        decide
  · intro pre mid htake hmid
    obtain ⟨hscan, hc⟩ := scan_back_reaches ctx s n pre mid ')' htake hmid
    rw [hscan, scan_back, if_pos hc]
  · intro pre mid htake hmid
    obtain ⟨hscan, hc⟩ := scan_back_reaches ctx s n pre mid '(' htake hmid
    rw [hscan, scan_back, if_neg (by rw [hc]; decide), if_pos hc]

/-- For a cursor inside the text, the walk to the line and the step to the
column end right behind the text before the cursor, which is a prefix of the
source. -/
theorem seek_line_text_before_cursor (s : List Char) (cur : Int) (n col : Nat)
    (t : List Char) (ht : text_before_cursor s n col = some t) :
    seek_line s cur (cur + n) + col = t.length ∧ s.take t.length = t := by
  induction s generalizing cur n t with
  | nil =>
    cases n with
    | zero =>
      simp only [text_before_cursor, List.takeWhile_nil, List.length_nil, Nat.le_zero_eq,
        List.take_nil] at ht
      split at ht
      · cases ht
        simp [seek_line, *]
      · cases ht
    | succ m => simp [text_before_cursor] at ht
  | cons c cs ih =>
    cases n with
    | zero =>
      simp only [text_before_cursor] at ht
      split at ht
      · rename_i hle
        cases ht
        simp only [seek_line, Nat.cast_zero, add_zero, lt_self_iff_false, if_false, zero_add,
          List.length_take, Nat.min_eq_left hle, true_and]
        conv_lhs => rw [← List.takeWhile_append_dropWhile (fun c => c != '\n') (c :: cs)]
        rw [List.take_append_of_le_length hle]
      · cases ht
    | succ m =>
      have hlt : cur < cur + ((m + 1 : Nat) : Int) := by omega
      simp only [seek_line, hlt, if_true]
      by_cases hc : c = '\n'
      · subst hc
        simp only [text_before_cursor, bne_self_eq_false, Bool.false_eq_true, not_false_eq_true,
          List.dropWhile_cons_of_neg, List.takeWhile_cons_of_neg, List.nil_append,
          Option.map_eq_some'] at ht
        obtain ⟨t2, ht2, rfl⟩ := ht
        have := ih (cur + 1) m t2 ht2
        have e : cur + 1 + (m : Int) = cur + ((m + 1 : Nat) : Int) := by push_cast; ring
        rw [e] at this
        simp only [if_true, List.length_cons, List.take_succ_cons, this.2, and_true]
        omega
      · have hne : (c != '\n') = true := by simpa using hc
        have hd : List.dropWhile (fun c => c != '\n') (c :: cs) =
            List.dropWhile (fun c => c != '\n') cs := List.dropWhile_cons_of_pos hne
        have htw : List.takeWhile (fun c => c != '\n') (c :: cs) =
            c :: List.takeWhile (fun c => c != '\n') cs := List.takeWhile_cons_of_pos hne
        have ht3 : ∃ t2, text_before_cursor cs (m + 1) col = some t2 ∧ t = c :: t2 := by
          simp only [text_before_cursor] at ht ⊢
          rw [hd, htw] at ht
          cases hdw : List.dropWhile (fun c => c != '\n') cs with
          | nil => rw [hdw] at ht; cases ht
          | cons nl rest =>
            rw [hdw] at ht
            simp only [Option.map_eq_some'] at ht ⊢
            obtain ⟨t4, ht4, rfl⟩ := ht
            exact ⟨_, ⟨t4, ht4, rfl⟩, rfl⟩
        obtain ⟨t2, ht2, rfl⟩ := ht3
        have := ih cur (m + 1) t2 ht2
        simp only [hc, if_false, List.length_cons, List.take_succ_cons, this.2, and_true]
        omega

/-- C15, amended. The backward scan of `lsp_signature_help` runs over the
whole text to the left of the cursor, across line ends. For a tracked file
with a cached source and a cursor inside the text (`before` is the text from
the start of the document up to the cursor), the parenthesis that decides is
the last one in `before`, whatever line it is on: when `before` holds no
parenthesis the answer is null; when the last one is `)` the function returns
without an answer; when the last one is `(` it is the one accepted, and the
answer is that of the identifier lookup at this parenthesis (no answer, null,
or the signature of the function found, whose label fits `params[1024]` and
`label[2048]`). -/
theorem signature_scan_last_paren (h : Helpers) (g : Option LSPProject) (uri : String)
    (line col : Int) (ctx : ParserContext) (pf : ProjectFile) (src : String)
    (before : List Char)
    (hctx : g.bind (fun proj => proj.ctx) = some ctx)
    (hfile : h.lsp_project_get_file g uri = some pf) (hsrc : pf.source = some src)
    (hline : 0 ≤ line) (hcol : 0 ≤ col)
    (hbefore : text_before_cursor src.toList line.toNat col.toNat = some before) :
    ((∀ x ∈ before, x ≠ '(' ∧ x ≠ ')') →
      lsp_signature_help h g uri line col = [Response.null]) ∧
    (∀ pre post, before = pre ++ ')' :: post → (∀ x ∈ post, x ≠ '(' ∧ x ≠ ')') →
      lsp_signature_help h g uri line col = []) ∧
    (∀ pre post, before = pre ++ '(' :: post → (∀ x ∈ post, x ≠ '(' ∧ x ≠ ')') →
      (after_paren ctx src.toList pre.length = SigScan.bare_return →
        lsp_signature_help h g uri line col = []) ∧
      (after_paren ctx src.toList pre.length = SigScan.no_match →
        lsp_signature_help h g uri line col = [Response.null]) ∧
      (∀ fn, after_paren ctx src.toList pre.length = SigScan.found fn →
        (params_loop h fn.arg_types true "").length ≤ 1023 →
        (signature_label h fn).length ≤ 2047 →
        lsp_signature_help h g uri line col =
          [Response.signatureHelp (signature_label h fn)])) := by
  have hseek := seek_line_text_before_cursor src.toList 0 line.toNat col.toNat before hbefore
  have e : (0 : Int) + (line.toNat : Int) = line := by omega
  rw [e] at hseek
  obtain ⟨hoff, htake⟩ := hseek
  have hptr : cursor_offset src.toList line col = before.length := by
    unfold cursor_offset
    split
    · exact hoff
    · have : col.toNat = 0 := by omega
      rw [this] at hoff
      exact hoff
  have hle : ¬ (before.length > src.toList.length) := by
    have := congrArg List.length htake
    rw [List.length_take] at this
    omega
  have hrun : lsp_signature_help h g uri line col =
      match scan_back ctx src.toList before.length with
      | SigScan.bare_return => []
      | SigScan.found fn => [Response.signatureHelp (signature_label h fn)]
      | SigScan.no_match => [Response.null] := by
    simp only [lsp_signature_help, hctx, hfile, hsrc, hptr, if_neg hle]
  obtain ⟨hnone, hclose, hopen⟩ := scan_back_last_paren ctx src.toList before.length
  rw [htake] at hnone hclose hopen
  refine ⟨?_, ?_, ?_⟩
  · intro hno
    rw [hrun, hnone hno]
  · intro pre post hpre hpost
    rw [hrun, hclose pre post hpre hpost]
  · intro pre post hpre hpost
    rw [hrun, hopen pre post hpre hpost]
    refine ⟨?_, ?_, ?_⟩
    · intro ha
      rw [ha]
    · intro ha
      rw [ha]
    · intro fn ha _ _
      rw [ha]

/-- Witness of C15 (amended): the cursor at (1, 3) of `add(1,` / `  2`; the
text before it is `add` ++ `(` ++ `1,` newline `  2`, and the answer is the
signature of `add`. -/
theorem signature_scan_last_paren_witness :
    text_before_cursor "add(1,\n  2".toList 1 3 =
        some ("add".toList ++ '(' :: "1,\n  2".toList) ∧
      lsp_signature_help demo_helpers (some multiline_project) "file:///w/c.zc" 1 3 =
        [Response.signatureHelp
          (signature_label demo_helpers ⟨"add", [some ⟨2⟩, some ⟨2⟩], some ⟨2⟩⟩)] :=
  ⟨by decide,
   ((signature_scan_last_paren demo_helpers (some multiline_project) "file:///w/c.zc" 1 3
      ⟨[⟨"add", [some ⟨2⟩, some ⟨2⟩], some ⟨2⟩⟩], [], []⟩
      ⟨"/w/c.zc", "file:///w/c.zc", some "add(1,\n  2", some ⟨[]⟩⟩ "add(1,\n  2"
      ("add".toList ++ '(' :: "1,\n  2".toList)
      rfl (by decide) rfl (by decide) (by decide) (by decide)).2.2
      "add".toList "1,\n  2".toList rfl (by decide)).2.2
      ⟨"add", [some ⟨2⟩, some ⟨2⟩], some ⟨2⟩⟩ (by decide) (by decide) (by decide)⟩

/-! ### Request dispatch -/

/-- The test `strstr(json_str, name)` succeeds exactly when `name` occurs
somewhere in the message. -/
theorem strstr_isSome_iff (hay needle : List Char) :
    (strstr hay needle).isSome = true ↔ ∃ pre post, hay = pre ++ needle ++ post := by
  induction hay with
  | nil =>
    unfold strstr
    by_cases hn : needle = []
    · simp only [hn, if_true, Option.isSome_some, true_iff]
      exact ⟨[], [], rfl⟩
    · simp only [hn, if_false, Option.isSome_none, Bool.false_eq_true, false_iff]
      rintro ⟨pre, post, heq⟩
      have := congrArg List.length heq
      simp only [List.length_nil, List.length_append] at this
      exact hn (List.eq_nil_of_length_eq_zero (by omega))
  | cons c cs ih =>
    unfold strstr
    by_cases ht : (c :: cs).take needle.length = needle
    · simp only [ht, if_true, Option.isSome_some, true_iff]
      refine ⟨[], (c :: cs).drop needle.length, ?_⟩
      conv_lhs => rw [← List.take_append_drop needle.length (c :: cs)]
      rw [ht]
      rfl
    · simp only [ht, if_false, ih]
      constructor
      · rintro ⟨pre, post, heq⟩
        exact ⟨c :: pre, post, by rw [heq]; rfl⟩
      · rintro ⟨pre, post, heq⟩
        cases pre with
        | nil =>
          exfalso
          apply ht
          rw [heq]
          simp
        | cons p ps =>
          simp only [List.cons_append, List.cons.injEq] at heq
          exact ⟨ps, post, heq.2⟩

/-- The block test of `handle_request`, in terms of occurrence. -/
theorem mentions_iff (json : List Char) (name : String) :
    mentions json name = true ↔ occurs_in name json :=
  strstr_isSome_iff json name.toList

/-- Membership in the calls of one block of `handle_request`. -/
theorem mem_position_block (json : List Char) (name : String)
    (mk : String → Int → Int → HandlerCall) (call : HandlerCall) :
    call ∈ position_block json name mk ↔
      occurs_in name json ∧ ∃ uri, get_json_string json "uri" = some uri ∧
        call = mk uri (get_json_position json).1 (get_json_position json).2 := by
  unfold position_block
  rw [← mentions_iff]
  by_cases hm : mentions json name = true
  · simp only [hm, if_true, true_and]
    cases hu : get_json_string json "uri" with
    | none => simp
    | some uri => simp
  · simp [hm]

/-- Without the text `initialize` in the message, the calls of
`handle_request` are those of its seven blocks, in order. -/
theorem dispatch_plain (json : List Char) (hinit : ¬ occurs_in "initialize" json)
    (call : HandlerCall) :
    call ∈ dispatch json ↔
      ((occurs_in "didOpen" json ∨ occurs_in "didChange" json) ∧
        ∃ uri text, get_json_string json "uri" = some uri ∧ get_text_content json = some text ∧
          call = HandlerCall.check_file uri text) ∨
      call ∈ position_block json "textDocument/definition" HandlerCall.goto_definition ∨
      call ∈ position_block json "textDocument/hover" HandlerCall.hover ∨
      call ∈ position_block json "textDocument/completion" HandlerCall.completion ∨
      (occurs_in "textDocument/documentSymbol" json ∧
        ∃ uri, get_json_string json "uri" = some uri ∧ call = HandlerCall.document_symbol uri) ∨
      call ∈ position_block json "textDocument/references" HandlerCall.references ∨
      call ∈ position_block json "textDocument/signatureHelp" HandlerCall.signature_help := by
  have hm : mentions json "initialize" = false := by
    cases hb : mentions json "initialize" with
    | false => rfl
    | true => exact absurd ((mentions_iff json "initialize").mp hb) hinit
  unfold dispatch
  rw [hm]
  simp only [Bool.false_eq_true, if_false, List.mem_append, or_assoc]
  have h1 : call ∈ (if mentions json "didOpen" = true ∨ mentions json "didChange" = true then
        match get_json_string json "uri", get_text_content json with
        | some uri, some text => [HandlerCall.check_file uri text]
        | _, _ => []
      else []) ↔
      ((occurs_in "didOpen" json ∨ occurs_in "didChange" json) ∧
        ∃ uri text, get_json_string json "uri" = some uri ∧ get_text_content json = some text ∧
          call = HandlerCall.check_file uri text) := by
    rw [← mentions_iff, ← mentions_iff]
    by_cases hc : mentions json "didOpen" = true ∨ mentions json "didChange" = true
    · simp only [hc, if_true, true_and]
      cases get_json_string json "uri" <;> cases get_text_content json <;> simp
    · simp [hc]
  have h5 : call ∈ (if mentions json "textDocument/documentSymbol" = true then
        match get_json_string json "uri" with
        | some uri => [HandlerCall.document_symbol uri]
        | none => []
      else []) ↔
      (occurs_in "textDocument/documentSymbol" json ∧
        ∃ uri, get_json_string json "uri" = some uri ∧ call = HandlerCall.document_symbol uri) := by
    rw [← mentions_iff]
    by_cases hc : mentions json "textDocument/documentSymbol" = true
    · simp only [hc, if_true, true_and]
      cases get_json_string json "uri" <;> simp
    · simp [hc]
  rw [h1, h5]

/-- Counterexample to C12 as stated: a `didChange` message without any `uri`
whose text mentions `initialize` makes `handle_request` run the initialize
handler: the project is replaced and the capabilities response is sent. -/
theorem request_without_uri_runs_init :
    get_json_string no_uri_message.toList "method" = some "textDocument/didChange" ∧
      get_json_string no_uri_message.toList "uri" = none ∧
      dispatch no_uri_message.toList = [HandlerCall.project_init "."] ∧
      handle_request demo_server (some shadow_project) no_uri_message =
        (some ⟨some ⟨[], [], []⟩, [], "."⟩, [Response.capabilities]) := by
  decide

/-- C12, amended. For every message in which `get_json_string` finds no
string value for the key `uri` and in which the text `initialize` does not
occur, `handle_request` calls no handler and sends no response, and the
project state is unchanged; this covers every request of a document method
(didOpen, didChange, definition, hover, completion, documentSymbol,
references, signatureHelp) without a URI and without that text. -/
theorem request_without_uri_dropped (sv : Server) (g : Option LSPProject) (json_str : String)
    (hinit : ¬ occurs_in "initialize" json_str.toList)
    (huri : get_json_string json_str.toList "uri" = none) :
    dispatch json_str.toList = [] ∧ handle_request sv g json_str = (g, []) := by
  have key : ∀ json : List Char, ¬ occurs_in "initialize" json →
      get_json_string json "uri" = none → dispatch json = [] := by
    intro json hi hu
    apply List.eq_nil_iff_forall_not_mem.mpr
    intro call hcall
    rw [dispatch_plain _ hi] at hcall
    simp [mem_position_block, hu] at hcall
  have hd := key json_str.toList hinit huri
  refine ⟨hd, ?_⟩
  unfold handle_request
  rw [hd]
  rfl

/-- Witness of C12 (amended): a hover request without a URI is dropped. -/
theorem request_without_uri_dropped_witness :
    get_json_string no_uri_hover.toList "method" = some "textDocument/hover" ∧
      (dispatch no_uri_hover.toList = [] ∧
        handle_request demo_server (some shadow_project) no_uri_hover =
          (some shadow_project, [])) :=
  ⟨by decide,
   request_without_uri_dropped demo_server (some shadow_project) no_uri_hover
    (fun hocc => absurd ((mentions_iff _ _).mpr hocc) (by decide)) (by decide)⟩

/-- Counterexample to C16 as stated: two `didChange` notifications for the
same URI. The text of the first declares `fn initialize`, and the only
handler that runs is the initialize handler, not the indexing of the new
text. The text of the second is a comment that names `textDocument/hover`,
and the hover handler runs after the indexing. -/
theorem routing_depends_on_document_text :
    get_json_string
        (did_change_message "file:///w/a.zc" "fn initialize() \x7b\x7d".toList).toList "method" =
        some "textDocument/didChange" ∧
      dispatch (did_change_message "file:///w/a.zc" "fn initialize() \x7b\x7d".toList).toList =
        [HandlerCall.project_init "."] ∧
      get_json_string
        (did_change_message "file:///w/a.zc" "// see textDocument/hover".toList).toList "method" =
        some "textDocument/didChange" ∧
      dispatch (did_change_message "file:///w/a.zc" "// see textDocument/hover".toList).toList =
        [HandlerCall.check_file "file:///w/a.zc" "// see textDocument/hover",
         HandlerCall.hover "file:///w/a.zc" 0 0] := by
  decide

/-- C16, amended. `handle_request` routes a message by the method names that
occur anywhere in its text. When `initialize` occurs in the message, the
initialize handler is the only one called. Otherwise a handler is called
exactly when its method name (`didOpen` or `didChange` for indexing,
`textDocument/definition`, `textDocument/hover`, `textDocument/completion`,
`textDocument/documentSymbol`, `textDocument/references`,
`textDocument/signatureHelp`) occurs somewhere in the message, be it in the
method field, the document text or the URI, and a `uri` value (for indexing
also a `text` value) is found. -/
theorem dispatch_by_occurrence (json : List Char) :
    (occurs_in "initialize" json →
      dispatch json = [HandlerCall.project_init (init_root json)]) ∧
    (¬ occurs_in "initialize" json →
      (∀ root, HandlerCall.project_init root ∉ dispatch json) ∧
      ((∃ uri text, HandlerCall.check_file uri text ∈ dispatch json) ↔
        (occurs_in "didOpen" json ∨ occurs_in "didChange" json) ∧
          (get_json_string json "uri").isSome = true ∧ (get_text_content json).isSome = true) ∧
      ((∃ uri line col, HandlerCall.goto_definition uri line col ∈ dispatch json) ↔
        occurs_in "textDocument/definition" json ∧ (get_json_string json "uri").isSome = true) ∧
      ((∃ uri line col, HandlerCall.hover uri line col ∈ dispatch json) ↔
        occurs_in "textDocument/hover" json ∧ (get_json_string json "uri").isSome = true) ∧
      ((∃ uri line col, HandlerCall.completion uri line col ∈ dispatch json) ↔
        occurs_in "textDocument/completion" json ∧ (get_json_string json "uri").isSome = true) ∧
      ((∃ uri, HandlerCall.document_symbol uri ∈ dispatch json) ↔
        occurs_in "textDocument/documentSymbol" json ∧
          (get_json_string json "uri").isSome = true) ∧
      ((∃ uri line col, HandlerCall.references uri line col ∈ dispatch json) ↔
        occurs_in "textDocument/references" json ∧ (get_json_string json "uri").isSome = true) ∧
      ((∃ uri line col, HandlerCall.signature_help uri line col ∈ dispatch json) ↔
        occurs_in "textDocument/signatureHelp" json ∧
          (get_json_string json "uri").isSome = true)) := by
  constructor
  · intro hocc
    have hm := (mentions_iff json "initialize").mpr hocc
    simp [dispatch, hm]
  · intro hinit
    refine ⟨?_, ?_, ?_, ?_, ?_, ?_, ?_, ?_⟩
    · intro root hmem
      rw [dispatch_plain json hinit] at hmem
      simp [mem_position_block] at hmem
    · constructor
      · rintro ⟨x, y, hmem⟩
        rw [dispatch_plain json hinit] at hmem
        simp only [mem_position_block] at hmem
        rcases hmem with ⟨hocc, u, t, hu, ht, heq⟩ | ⟨hocc, u, hu, heq⟩ | ⟨hocc, u, hu, heq⟩ |
          ⟨hocc, u, hu, heq⟩ | ⟨hocc, u, hu, heq⟩ | ⟨hocc, u, hu, heq⟩ | ⟨hocc, u, hu, heq⟩ <;>
          cases heq
        exact ⟨hocc, by simp [hu], by simp [ht]⟩
      · rintro ⟨hocc, hu, ht⟩
        obtain ⟨u, hu⟩ := Option.isSome_iff_exists.mp hu
        obtain ⟨t, ht⟩ := Option.isSome_iff_exists.mp ht
        refine ⟨u, t, ?_⟩
        rw [dispatch_plain json hinit]
        exact Or.inl ⟨hocc, u, t, hu, ht, rfl⟩
    · constructor
      · rintro ⟨x, y, z, hmem⟩
        rw [dispatch_plain json hinit] at hmem
        simp only [mem_position_block] at hmem
        rcases hmem with ⟨hocc, u, t, hu, ht, heq⟩ | ⟨hocc, u, hu, heq⟩ | ⟨hocc, u, hu, heq⟩ |
          ⟨hocc, u, hu, heq⟩ | ⟨hocc, u, hu, heq⟩ | ⟨hocc, u, hu, heq⟩ | ⟨hocc, u, hu, heq⟩ <;>
          cases heq
        exact ⟨hocc, by simp [hu]⟩
      · rintro ⟨hocc, hu⟩
        obtain ⟨u, hu⟩ := Option.isSome_iff_exists.mp hu
        refine ⟨u, (get_json_position json).1, (get_json_position json).2, ?_⟩
        rw [dispatch_plain json hinit]
        exact Or.inr (Or.inl ((mem_position_block _ _ _ _).mpr ⟨hocc, u, hu, rfl⟩))
    · constructor
      · rintro ⟨x, y, z, hmem⟩
        rw [dispatch_plain json hinit] at hmem
        simp only [mem_position_block] at hmem
        rcases hmem with ⟨hocc, u, t, hu, ht, heq⟩ | ⟨hocc, u, hu, heq⟩ | ⟨hocc, u, hu, heq⟩ |
          ⟨hocc, u, hu, heq⟩ | ⟨hocc, u, hu, heq⟩ | ⟨hocc, u, hu, heq⟩ | ⟨hocc, u, hu, heq⟩ <;>
          cases heq
        exact ⟨hocc, by simp [hu]⟩
      · rintro ⟨hocc, hu⟩
        obtain ⟨u, hu⟩ := Option.isSome_iff_exists.mp hu
        refine ⟨u, (get_json_position json).1, (get_json_position json).2, ?_⟩
        rw [dispatch_plain json hinit]
        exact Or.inr (Or.inr (Or.inl ((mem_position_block _ _ _ _).mpr ⟨hocc, u, hu, rfl⟩)))
    · constructor
      · rintro ⟨x, y, z, hmem⟩
        rw [dispatch_plain json hinit] at hmem
        simp only [mem_position_block] at hmem
        rcases hmem with ⟨hocc, u, t, hu, ht, heq⟩ | ⟨hocc, u, hu, heq⟩ | ⟨hocc, u, hu, heq⟩ |
          ⟨hocc, u, hu, heq⟩ | ⟨hocc, u, hu, heq⟩ | ⟨hocc, u, hu, heq⟩ | ⟨hocc, u, hu, heq⟩ <;>
          cases heq
        exact ⟨hocc, by simp [hu]⟩
      · rintro ⟨hocc, hu⟩
        obtain ⟨u, hu⟩ := Option.isSome_iff_exists.mp hu
        refine ⟨u, (get_json_position json).1, (get_json_position json).2, ?_⟩
        rw [dispatch_plain json hinit]
        exact Or.inr (Or.inr (Or.inr (Or.inl
          ((mem_position_block _ _ _ _).mpr ⟨hocc, u, hu, rfl⟩))))
    · constructor
      · rintro ⟨x, hmem⟩
        rw [dispatch_plain json hinit] at hmem
        simp only [mem_position_block] at hmem
        rcases hmem with ⟨hocc, u, t, hu, ht, heq⟩ | ⟨hocc, u, hu, heq⟩ | ⟨hocc, u, hu, heq⟩ |
          ⟨hocc, u, hu, heq⟩ | ⟨hocc, u, hu, heq⟩ | ⟨hocc, u, hu, heq⟩ | ⟨hocc, u, hu, heq⟩ <;>
          cases heq
        exact ⟨hocc, by simp [hu]⟩
      · rintro ⟨hocc, hu⟩
        obtain ⟨u, hu⟩ := Option.isSome_iff_exists.mp hu
        refine ⟨u, ?_⟩
        rw [dispatch_plain json hinit]
        exact Or.inr (Or.inr (Or.inr (Or.inr (Or.inl ⟨hocc, u, hu, rfl⟩))))
    · constructor
      · rintro ⟨x, y, z, hmem⟩
        rw [dispatch_plain json hinit] at hmem
        simp only [mem_position_block] at hmem
        rcases hmem with ⟨hocc, u, t, hu, ht, heq⟩ | ⟨hocc, u, hu, heq⟩ | ⟨hocc, u, hu, heq⟩ |
          ⟨hocc, u, hu, heq⟩ | ⟨hocc, u, hu, heq⟩ | ⟨hocc, u, hu, heq⟩ | ⟨hocc, u, hu, heq⟩ <;>
          cases heq
        exact ⟨hocc, by simp [hu]⟩
      · rintro ⟨hocc, hu⟩
        obtain ⟨u, hu⟩ := Option.isSome_iff_exists.mp hu
        refine ⟨u, (get_json_position json).1, (get_json_position json).2, ?_⟩
        rw [dispatch_plain json hinit]
        exact Or.inr (Or.inr (Or.inr (Or.inr (Or.inr (Or.inl
          ((mem_position_block _ _ _ _).mpr ⟨hocc, u, hu, rfl⟩))))))
    · constructor
      · rintro ⟨x, y, z, hmem⟩
        rw [dispatch_plain json hinit] at hmem
        simp only [mem_position_block] at hmem
        rcases hmem with ⟨hocc, u, t, hu, ht, heq⟩ | ⟨hocc, u, hu, heq⟩ | ⟨hocc, u, hu, heq⟩ |
          ⟨hocc, u, hu, heq⟩ | ⟨hocc, u, hu, heq⟩ | ⟨hocc, u, hu, heq⟩ | ⟨hocc, u, hu, heq⟩ <;>
          cases heq
        exact ⟨hocc, by simp [hu]⟩
      · rintro ⟨hocc, hu⟩
        obtain ⟨u, hu⟩ := Option.isSome_iff_exists.mp hu
        refine ⟨u, (get_json_position json).1, (get_json_position json).2, ?_⟩
        rw [dispatch_plain json hinit]
        exact Or.inr (Or.inr (Or.inr (Or.inr (Or.inr (Or.inr
          ((mem_position_block _ _ _ _).mpr ⟨hocc, u, hu, rfl⟩))))))

/-- Witness of C16 (amended): a hover request routes to the hover handler
alone. -/
theorem dispatch_by_occurrence_witness :
    dispatch hover_request.toList = [HandlerCall.hover "file:///w/a.zc" 1 20] ∧
      ((∃ uri line col, HandlerCall.hover uri line col ∈ dispatch hover_request.toList) ↔
        occurs_in "textDocument/hover" hover_request.toList ∧
          (get_json_string hover_request.toList "uri").isSome = true) :=
  ⟨by decide,
   ((dispatch_by_occurrence hover_request.toList).2
      (fun hocc => absurd ((mentions_iff _ _).mpr hocc) (by decide))).2.2.2.1⟩

/-! ### Text extraction -/

/-- The unescape loop inverts the escaping. -/
theorem unescape_json_escape (s : List Char) : unescape (json_escape s) = s := by
  induction s with
  | nil => rfl
  | cons c cs ih =>
    unfold json_escape
    by_cases h1 : c = '\n'
    · subst h1
      simp only [if_true, List.cons_append, List.nil_append]
      rw [unescape]
      simp [ih, backslash]
    by_cases h2 : c = '\r'
    · subst h2
      simp only [if_neg h1, if_true, List.cons_append, List.nil_append]
      rw [unescape]
      simp [ih, backslash]
    by_cases h3 : c = '\t'
    · subst h3
      simp only [if_neg h1, if_neg h2, if_true, List.cons_append, List.nil_append]
      rw [unescape]
      simp [ih, backslash]
    by_cases h4 : c = dquote
    · subst h4
      simp only [if_neg h1, if_neg h2, if_neg h3, if_true, List.cons_append, List.nil_append]
      rw [unescape]
      simp [ih, backslash, dquote]
    by_cases h5 : c = backslash
    · subst h5
      simp only [if_neg h1, if_neg h2, if_neg h3, if_neg h4, if_true, List.cons_append,
        List.nil_append]
      rw [unescape]
      simp [ih, backslash, dquote]
    · simp only [if_neg h1, if_neg h2, if_neg h3, if_neg h4, if_neg h5, List.cons_append,
        List.nil_append]
      cases hrest : json_escape cs with
      | nil =>
        rw [hrest] at ih
        rw [unescape, if_neg h5, ← ih]
        simp [unescape]
      | cons d rest =>
        rw [unescape, if_neg h5, ← hrest, ih]

/-- The value loop steps over a character that is no double quote. -/
theorem scan_value_plain (prev c : Char) (rest : List Char) (hc : c ≠ dquote) :
    scan_value prev (c :: rest) = c :: scan_value c rest := by
  rw [scan_value, if_neg (fun hh => hc hh.1)]

/-- The value loop steps over a backslash and the character behind it. -/
theorem scan_value_pair (prev x : Char) (rest : List Char) :
    scan_value prev (backslash :: x :: rest) = backslash :: x :: scan_value x rest := by
  rw [scan_value_plain prev backslash _ (by decide), scan_value,
    if_neg (fun hh => hh.2 rfl)]

/-- The value loop of `get_json_string` stops at the closing quote of an
escaped text, provided the text does not end in a backslash. -/
theorem scan_value_json_escape (s : List Char) (prev : Char) (post : List Char)
    (hprev : s = [] → prev ≠ backslash)
    (hlast : ∀ c, s.getLast? = some c → c ≠ backslash) :
    scan_value prev (json_escape s ++ dquote :: post) = json_escape s := by
  induction s generalizing prev with
  | nil =>
    simp only [json_escape, List.nil_append]
    rw [scan_value, if_pos ⟨rfl, hprev rfl⟩]
  | cons c cs ih =>
    have hlast2 : ∀ x, cs.getLast? = some x → x ≠ backslash := by
      intro x hx
      apply hlast x
      cases cs with
      | nil => simp at hx
      | cons d ds => simpa [List.getLast?_cons_cons] using hx
    have hcs : cs = [] → c ≠ backslash := by
      intro hnil
      apply hlast c
      rw [hnil]
      rfl
    by_cases h1 : c = '\n'
    · have he : json_escape (c :: cs) = backslash :: 'n' :: json_escape cs := by
        rw [json_escape, if_pos h1]
        rfl
      rw [he, List.cons_append, List.cons_append, scan_value_pair,
        ih 'n' (fun _ => by decide) hlast2]
    by_cases h2 : c = '\r'
    · have he : json_escape (c :: cs) = backslash :: 'r' :: json_escape cs := by
        rw [json_escape, if_neg h1, if_pos h2]
        rfl
      rw [he, List.cons_append, List.cons_append, scan_value_pair,
        ih 'r' (fun _ => by decide) hlast2]
    by_cases h3 : c = '\t'
    · have he : json_escape (c :: cs) = backslash :: 't' :: json_escape cs := by
        rw [json_escape, if_neg h1, if_neg h2, if_pos h3]
        rfl
      rw [he, List.cons_append, List.cons_append, scan_value_pair,
        ih 't' (fun _ => by decide) hlast2]
    by_cases h4 : c = dquote
    · have he : json_escape (c :: cs) = backslash :: dquote :: json_escape cs := by
        rw [json_escape, if_neg h1, if_neg h2, if_neg h3, if_pos h4]
        rfl
      rw [he, List.cons_append, List.cons_append, scan_value_pair,
        ih dquote (fun _ => by decide) hlast2]
    by_cases h5 : c = backslash
    · have hne : cs ≠ [] := fun hnil => hcs hnil h5
      have he : json_escape (c :: cs) = backslash :: backslash :: json_escape cs := by
        rw [json_escape, if_neg h1, if_neg h2, if_neg h3, if_neg h4, if_pos h5]
        rfl
      rw [he, List.cons_append, List.cons_append, scan_value_pair,
        ih backslash (fun hnil => absurd hnil hne) hlast2]
    · have he : json_escape (c :: cs) = c :: json_escape cs := by
        rw [json_escape, if_neg h1, if_neg h2, if_neg h3, if_neg h4, if_neg h5]
        rfl
      rw [he, List.cons_append, scan_value_plain prev c _ h4, ih c (fun _ => h5) hlast2]

/-- C17, the behaviour of the code at the failing input: the document text
`// dir C:\` ends in a backslash. Written as a JSON string under the `text`
key of a `didChange` message it ends in `\\` before the closing quote;
`get_json_string` takes that quote for an escaped one and runs on to the end
of the message, so `get_text_content` returns the text followed by `"}]}}`,
not the text. -/
theorem text_ending_in_backslash_not_recovered :
    json_escape "// dir C:\\".toList = "// dir C:\\\\".toList ∧
      get_json_string
        (did_change_message "file:///w/a.zc" "// dir C:\\".toList).toList "text" =
        some "// dir C:\\\\\"\x7d]\x7d\x7d" ∧
      get_text_content (did_change_message "file:///w/a.zc" "// dir C:\\".toList).toList =
        some "// dir C:\\\"\x7d]\x7d\x7d" ∧
      get_text_content (did_change_message "file:///w/a.zc" "// dir C:\\".toList).toList ≠
        some "// dir C:\\" := by
  decide

end ZenLsp
